import Mathlib

/-!
Verification of the mafia-beta game core: a shallow embedding of the `Room`
state machine (src/src/handlers/socketHandlers.ts, appended model document,
together with `RoomManager`) and proofs about its operations.

JavaScript `Map` values are modelled as association lists in insertion order
(`Map.set` replaces in place or appends, `Map.delete` removes the entry),
`Record` objects as the same structure built by repeated insertion.  Effects
are made explicit: `Date.now()` and `uuidv4()` become parameters, and the
`Math.random()` draws used for the mafia tie-break and the role shuffle are
injected as an index / a shuffled id list.
-/

namespace Mafia

inductive Role where
  | mafia
  | doctor
  | sheriff
  | citizen
deriving DecidableEq, Repr

inductive GamePhase where
  | lobby
  | night
  | discussion
  | voting
  | ended
deriving DecidableEq, Repr

structure Player where
  id : String
  name : String
  isAlive : Bool
  isHost : Bool
  role : Option Role
deriving DecidableEq, Repr

structure DiscussionState where
  currentSpeakerId : Option String
  speakerOrder : List String
  currentSpeakerIndex : Nat
  isIndividualPhase : Bool
  speakingTimePerPlayer : Nat
deriving DecidableEq, Repr

structure GameSettings where
  nightDuration : Nat
  discussionDuration : Nat
  dayDuration : Nat
  votingDuration : Nat
  individualDiscussionDuration : Nat
  individualVotingDuration : Nat
  mafiaCount : Nat
  hasDoctor : Bool
  hasSheriff : Bool
  minPlayers : Nat
  maxPlayers : Nat
deriving DecidableEq, Repr

structure ChatMessage where
  id : String
  senderId : String
  senderName : String
  text : String
  timestamp : Nat
  isSystem : Bool
deriving DecidableEq, Repr

/-- JavaScript `Map.get`: value of the first (unique) entry with the key. -/
def mapGet : List (String × α) → String → Option α
  | [], _ => none
  | e :: rest, k => if e.1 = k then some e.2 else mapGet rest k

/-- JavaScript `Map.has`. -/
def mapHas (m : List (String × α)) (k : String) : Bool :=
  (mapGet m k).isSome

/-- JavaScript `Map.set`: replace in place if the key exists, else append. -/
def mapSet (m : List (String × α)) (k : String) (v : α) : List (String × α) :=
  match m with
  | [] => [(k, v)]
  | e :: rest => if e.1 = k then (k, v) :: rest else e :: mapSet rest k v

/-- JavaScript `Map.delete`: drop the entry with the key, keeping order. -/
def mapDelete (m : List (String × α)) (k : String) : List (String × α) :=
  match m with
  | [] => []
  | e :: rest => if e.1 = k then rest else e :: mapDelete rest k

/-- JavaScript `Map.values()` as a list, in insertion order. -/
def mapValues (m : List (String × α)) : List α :=
  m.map (·.2)

/-- `x || null` on a JS string-or-null: the empty string is falsy. -/
def jsStringOrNull (o : Option String) : Option String :=
  match o with
  | some s => if s = "" then none else some s
  | none => none

structure VotingResult where
  eliminatedId : Option String
  votes : List (String × Nat)
  isTie : Bool
deriving DecidableEq, Repr

structure NightResult where
  killedId : Option String
  savedId : Option String
  checkedId : Option String
  checkedRole : Option Role
deriving DecidableEq, Repr

structure LastNight where
  killedId : Option String
  savedId : Option String
deriving DecidableEq, Repr

/-- The `Room` class state (socketHandlers.ts, appended model document). -/
structure Room where
  id : String
  code : String
  hostId : String
  players : List (String × Player)
  phase : GamePhase
  round : Nat
  endTime : Option Nat
  settings : GameSettings
  discussionState : Option DiscussionState
  nightActions : List (String × String)
  votes : List (String × String)
  chatMessages : List ChatMessage
  createdAt : Nat
  connectedSockets : List (String × String)
  isEnded : Bool
  lastVotingResult : Option VotingResult
  lastNightResult : Option LastNight
deriving DecidableEq, Repr

namespace Room

/-- `getAllPlayers()`. -/
def getAllPlayers (r : Room) : List Player :=
  mapValues r.players

/-- `getAlivePlayers()`. -/
def getAlivePlayers (r : Room) : List Player :=
  (getAllPlayers r).filter (·.isAlive)

/-- `addPlayer(playerId, playerName, isHost)`. -/
def addPlayer (r : Room) (playerId playerName : String) (isHost : Bool) : Room :=
  let p : Player :=
    { id := playerId, name := playerName, isAlive := true, isHost := isHost, role := none }
  { r with players := mapSet r.players playerId p }

/-- `removePlayer(playerId)`: the boolean is the method's return value. -/
def removePlayer (r : Room) (playerId : String) : Room × Bool :=
  let wasHost := (mapGet r.players playerId).map (·.isHost)
  let removed := mapHas r.players playerId
  let players' := mapDelete r.players playerId
  if removed = true ∧ wasHost = some true ∧ 0 < players'.length then
    match players' with
    | [] => ({ r with players := players' }, removed)
    | (k, p) :: rest =>
        ({ r with players := (k, { p with isHost := true }) :: rest, hostId := p.id }, removed)
  else
    ({ r with players := players' }, removed)

/-- `setNightAction(playerId, targetId)`. -/
def setNightAction (r : Room) (playerId targetId : String) : Room :=
  { r with nightActions := mapSet r.nightActions playerId targetId }

/-- `vote(voterId, targetId)`: `none` models the `AlreadyVoted` throw. -/
def vote (r : Room) (voterId targetId : String) : Option Room :=
  if mapHas r.votes voterId then none
  else some { r with votes := mapSet r.votes voterId targetId }

/-- `addChatMessage`, with the generated uuid and `Date.now()` as inputs. -/
def addChatMessage (r : Room) (senderId senderName text : String) (isSystem : Bool)
    (uuid : String) (now : Nat) : Room :=
  { r with chatMessages := r.chatMessages ++
      [{ id := uuid, senderId := senderId, senderName := senderName,
         text := text, timestamp := now, isSystem := isSystem }] }

/-- `setIsEnded(ended)`: also forces `phase = "ended"` when ended. -/
def setIsEnded (r : Room) (ended : Bool) : Room :=
  { r with isEnded := ended, phase := if ended then GamePhase.ended else r.phase }

/-- `updateEndTime(durationSeconds)` with `Date.now()` as input. -/
def updateEndTime (r : Room) (durationSeconds now : Nat) : Room :=
  { r with endTime := some (now + durationSeconds * 1000) }

/-- `startDiscussion()`. -/
def startDiscussion (r : Room) (now : Nat) : Room :=
  let alive := getAlivePlayers r
  let ds : DiscussionState :=
    { currentSpeakerId := jsStringOrNull (alive.head?.map (·.id)),
      speakerOrder := alive.map (·.id),
      currentSpeakerIndex := 0,
      isIndividualPhase := true,
      speakingTimePerPlayer := r.settings.individualDiscussionDuration }
  updateEndTime { r with phase := GamePhase.discussion, discussionState := some ds }
    r.settings.individualDiscussionDuration now

/-- `nextSpeaker()`: the boolean is the method's return value. -/
def nextSpeaker (r : Room) (now : Nat) : Room × Bool :=
  match r.discussionState with
  | none => (r, false)
  | some ds =>
      if ds.isIndividualPhase then
        let nextIndex := ds.currentSpeakerIndex + 1
        if nextIndex < ds.speakerOrder.length then
          let ds' : DiscussionState :=
            { ds with currentSpeakerIndex := nextIndex,
                      currentSpeakerId := ds.speakerOrder.get? nextIndex }
          (updateEndTime { r with discussionState := some ds' }
            r.settings.individualDiscussionDuration now, true)
        else
          let ds' : DiscussionState :=
            { ds with isIndividualPhase := false, currentSpeakerId := none }
          (updateEndTime { r with discussionState := some ds' }
            r.settings.discussionDuration now, true)
      else
        (r, false)

/-- `endDiscussion()`: transitions to voting with a fresh voter sequence. -/
def endDiscussion (r : Room) (now : Nat) : Room :=
  let alive := getAlivePlayers { r with discussionState := none, phase := GamePhase.voting }
  let ds : DiscussionState :=
    { currentSpeakerId := jsStringOrNull (alive.head?.map (·.id)),
      speakerOrder := alive.map (·.id),
      currentSpeakerIndex := 0,
      isIndividualPhase := true,
      speakingTimePerPlayer := r.settings.individualVotingDuration }
  updateEndTime
    { r with phase := GamePhase.voting, discussionState := some ds, votes := [] }
    r.settings.individualVotingDuration now

/-- `nextVoter()`: the boolean is the method's return value. -/
def nextVoter (r : Room) (now : Nat) : Room × Bool :=
  match r.discussionState with
  | none => (r, false)
  | some ds =>
      let nextIndex := ds.currentSpeakerIndex + 1
      if nextIndex < ds.speakerOrder.length then
        let ds' : DiscussionState :=
          { ds with currentSpeakerIndex := nextIndex,
                    currentSpeakerId := ds.speakerOrder.get? nextIndex }
        (updateEndTime { r with discussionState := some ds' }
          r.settings.individualVotingDuration now, true)
      else
        (r, false)

end Room

/-- One `voteCounts[target] = (voteCounts[target] || 0) + 1` step on a Record. -/
def bump (m : List (String × Nat)) (k : String) : List (String × Nat) :=
  mapSet m k (((mapGet m k).getD 0) + 1)

/-- The tally Record built by a `forEach` of `bump`s over targets. -/
def tallyList (ts : List String) : List (String × Nat) :=
  ts.foldl bump []

/-- Count recorded for a key in a tally Record (0 when absent). -/
def countOf (m : List (String × Nat)) (k : String) : Nat :=
  (mapGet m k).getD 0

/-- `Math.max(...values, 0)`. -/
def maxList (l : List Nat) : Nat :=
  l.foldr max 0

namespace Room

/-- `const player = players.get(k); if (player) player.isAlive = false;` -/
def markDeadByKey (m : List (String × Player)) (k : String) : List (String × Player) :=
  match mapGet m k with
  | some p => mapSet m k ({ p with isAlive := false })
  | none => m

/-- `player?.role === ro` for the actor of a night action. -/
def actorHasRole (r : Room) (id : String) (ro : Role) : Bool :=
  match mapGet r.players id with
  | some p => p.role = some ro
  | none => false

/-- The recorded night actions whose actor currently has the mafia role. -/
def mafiaActions (r : Room) : List (String × String) :=
  r.nightActions.filter (fun a => actorHasRole r a.1 Role.mafia)

/-- `mafiaPlayers`: living players holding the mafia role. -/
def livingMafia (r : Room) : List Player :=
  (mapValues r.players).filter (fun p => p.role = some Role.mafia ∧ p.isAlive)

/-- `voteCounts` of the mafia tally (empty-string targets are falsy, skipped). -/
def mafiaTally (r : Room) : List (String × Nat) :=
  tallyList (((mafiaActions r).map (·.2)).filter (fun t => ¬ t = ""))

/-- `maxVotes` of the mafia tally. -/
def mafiaMax (r : Room) : Nat :=
  maxList (mapValues (mafiaTally r))

/-- `targetsWithMaxVotes`: the plurality targets of the mafia tally. -/
def pluralityTargets (r : Room) : List String :=
  ((mafiaTally r).filter (fun e => e.2 = mafiaMax r)).map (·.1)

/-- `processNightPhase()`; `pick` is the `Math.floor(Math.random() * n)`
tie-break draw.  Returns the updated room and the result object. -/
def processNightPhase (r : Room) (pick : Nat) : Room × NightResult :=
  let actions := r.nightActions
  let killedId : Option String :=
    if 1 < (livingMafia r).length ∧ 0 < (mafiaActions r).length then
      if (pluralityTargets r).length = 1 then (pluralityTargets r).head?
      else if 1 < (pluralityTargets r).length then (pluralityTargets r).get? pick
      else none
    else if 0 < (mafiaActions r).length then ((mafiaActions r).head?).map (·.2)
    else none
  let doctorAction := actions.find? (fun a => actorHasRole r a.1 Role.doctor)
  let sheriffAction := actions.find? (fun a => actorHasRole r a.1 Role.sheriff)
  let savedId := doctorAction.map (·.2)
  let checkedId := sheriffAction.map (·.2)
  let checkedRole :=
    match jsStringOrNull checkedId with
    | some c => (mapGet r.players c).bind (·.role)
    | none => none
  let players' :=
    match killedId with
    | some k =>
        if k ≠ "" ∧ ¬ savedId = some k then markDeadByKey r.players k
        else r.players
    | none => r.players
  ({ r with players := players', nightActions := [] },
   { killedId := killedId, savedId := savedId,
     checkedId := checkedId, checkedRole := checkedRole })

/-- `voteCounts` of `processVoting`: explicit votes tallied, then an
automatic self-vote for every living player who has not voted. -/
def voteCounts (r : Room) : List (String × Nat) :=
  (getAlivePlayers r).foldl
    (fun acc p => if mapHas r.votes p.id then acc else bump acc p.id)
    (tallyList (mapValues r.votes))

/-- `maxVotes` of `processVoting`. -/
def votingMax (r : Room) : Nat :=
  maxList (mapValues (voteCounts r))

/-- `playersWithMaxVotes` of `processVoting`. -/
def votingWinners (r : Room) : List String :=
  ((voteCounts r).filter (fun e => e.2 = votingMax r)).map (·.1)

/-- `processVoting()`: returns the updated room and the result object. -/
def processVoting (r : Room) : Room × VotingResult :=
  let isTie : Bool := 1 < (votingWinners r).length ∨ votingMax r = 0
  let eliminatedId : Option String := if isTie then none else (votingWinners r).head?
  let players' :=
    match eliminatedId with
    | some e =>
        if e ≠ "" then markDeadByKey r.players e
        else r.players
    | none => r.players
  ({ r with players := players', votes := [], discussionState := none },
   { eliminatedId := eliminatedId, votes := voteCounts r, isTie := isTie })

/-- `checkGameEnd()`. -/
def checkGameEnd (r : Room) : Option Bool :=
  let alive := getAlivePlayers r
  let mafiaCount := (alive.filter (fun p => p.role = some Role.mafia)).length
  let townCount := (alive.filter (fun p => ¬ p.role = some Role.mafia)).length
  if mafiaCount = 0 then some true
  else if townCount ≤ mafiaCount then some false
  else none

/-- The `(mafiaCount, hasDoctor, hasSheriff)` tier table of `assignRoles`;
the doctor/sheriff flags are hardcoded `false` in every tier. -/
def roleConfig (playerCount : Nat) : Nat × Bool × Bool :=
  if playerCount ≤ 6 then (1, false, false)
  else if playerCount ≤ 9 then (2, false, false)
  else if playerCount ≤ 12 then (3, false, false)
  else (4, false, false)

/-- The sequence of roles handed out by position in the shuffled order:
mafia slots, an optional doctor slot, an optional sheriff slot, citizens. -/
def rolesList (n m : Nat) (hasD hasS : Bool) : List Role :=
  let mafias := List.replicate (min m n) Role.mafia
  let i1 := min m n
  let docs := if hasD = true ∧ i1 < n then [Role.doctor] else []
  let i2 := i1 + docs.length
  let shs := if hasS = true ∧ i2 < n then [Role.sheriff] else []
  let i3 := i2 + shs.length
  mafias ++ docs ++ shs ++ List.replicate (n - i3) Role.citizen

/-- `assignRoles()`: `shuffled` is the uniformly shuffled list of player ids
(the `[...players].sort(() => Math.random() - 0.5)` draw, injected).  A role
is assigned to each player by its position in the shuffled order. -/
def assignRoles (r : Room) (shuffled : List String) : Room :=
  let n := (getAllPlayers r).length
  let cfg := roleConfig n
  let roles := rolesList n cfg.1 cfg.2.1 cfg.2.2
  let assign := fun (e : String × Player) =>
    (e.1, { e.2 with role := roles.get? (shuffled.indexOf e.1) })
  { r with players := r.players.map assign }

/-- `startGame()`: `none` models the `NotEnoughPlayers` throw. -/
def startGame (r : Room) (shuffled : List String) (now : Nat) : Option Room :=
  if r.players.length < r.settings.minPlayers then none
  else
    some (startDiscussion
      ({ assignRoles r shuffled with round := 1, nightActions := [], votes := [] }) now)

/-- `startNextNight()`. -/
def startNextNight (r : Room) (now : Nat) : Room :=
  updateEndTime
    { r with phase := GamePhase.night, round := r.round + 1,
             nightActions := [], votes := [] }
    r.settings.nightDuration now

end Room

/-- The serialized `GameRoom` snapshot shape. -/
structure GameRoom where
  id : String
  code : String
  hostId : String
  players : List Player
  phase : GamePhase
  round : Nat
  endTime : Nat
  maxPlayers : Nat
  minPlayers : Nat
  createdAt : Nat
  settings : GameSettings
  discussionState : Option DiscussionState
  chatMessages : List ChatMessage
  votes : List (String × String)
  nightActions : List (String × String)
  isEnded : Bool
deriving DecidableEq, Repr

/-- A JS `Record` built by assigning each entry of a map in order. -/
def recordOfMap (m : List (String × String)) : List (String × String) :=
  m.foldl (fun acc e => mapSet acc e.1 e.2) []

namespace Room

/-- `toGameRoom()`. -/
def toGameRoom (r : Room) : GameRoom :=
  { id := r.id, code := r.code, hostId := r.hostId,
    players := getAllPlayers r,
    phase := r.phase, round := r.round,
    endTime := r.endTime.getD 0,
    maxPlayers := if r.settings.maxPlayers = 0 then 16 else r.settings.maxPlayers,
    minPlayers := if r.settings.minPlayers = 0 then 4 else r.settings.minPlayers,
    createdAt := r.createdAt, settings := r.settings,
    discussionState := r.discussionState,
    chatMessages := r.chatMessages,
    votes := recordOfMap r.votes,
    nightActions := recordOfMap r.nightActions,
    isEnded := r.isEnded }

/-- `Room.fromGameRoom(data)`: the constructor's effects that survive the
field overrides are the host placeholder player, the empty connection map
and the cleared last-result fields. -/
def fromGameRoom (g : GameRoom) : Room :=
  let hostStub : Player :=
    { id := g.hostId, name := "", isAlive := true, isHost := true, role := none }
  { id := g.id, code := g.code, hostId := g.hostId,
    players := g.players.foldl (fun acc p => mapSet acc p.id p) [(g.hostId, hostStub)],
    phase := g.phase, round := g.round,
    endTime := if g.endTime = 0 then none else some g.endTime,
    settings := g.settings,
    discussionState := g.discussionState,
    nightActions := g.nightActions.foldl (fun acc e => mapSet acc e.1 e.2) [],
    votes := g.votes.foldl (fun acc e => mapSet acc e.1 e.2) [],
    chatMessages := g.chatMessages,
    createdAt := g.createdAt,
    connectedSockets := [],
    isEnded := g.isEnded,
    lastVotingResult := none,
    lastNightResult := none }

end Room

/-- `Number.prototype.toString(36)` fractional digits of `num/den` (a dyadic
rational in `[0,1)`, so the base-36 expansion terminates within the fuel). -/
def fracDigits : Nat → Nat → Nat → List Nat
  | 0, _, _ => []
  | _, 0, _ => []
  | fuel + 1, num, den => (num * 36 / den) :: fracDigits fuel (num * 36 % den) den

/-- A base-36 digit character, lowercase as JS produces it. -/
def base36Digit (d : Nat) : Char :=
  if d < 10 then Char.ofNat (48 + d) else Char.ofNat (97 + d - 10)

/-- `x.toString(36)` for a representable `num/den ∈ [0,1)` whose expansion
terminates: `"0"` for zero, else `"0."` followed by the digits. -/
def jsNumToString36 (num den : Nat) : String :=
  if num = 0 then "0"
  else "0." ++ String.mk ((fracDigits 64 num den).map base36Digit)

/-- `generateRoomCode()`:
`Math.random().toString(36).substring(2, 8).toUpperCase()` where the random
draw is the rational `num/den` (character-list form of substring/uppercase). -/
def generateRoomCode (num den : Nat) : String :=
  String.mk ((((jsNumToString36 num den).data.drop 2).take 6).map Char.toUpper)

/-- The `RoomManager.joinRoom` code-format test `/^[A-Z0-9]{6}$/`. -/
def isValidRoomCode (code : String) : Bool :=
  code.length = 6 ∧ code.data.all (fun c => ('A' ≤ c ∧ c ≤ 'Z') ∨ ('0' ≤ c ∧ c ≤ '9'))

end Mafia

namespace Mafia

/-! ### Association-list (JS `Map`/`Record`) lemmas -/

theorem mapGet_mapSet (m : List (String × α)) (k k' : String) (v : α) :
    mapGet (mapSet m k v) k' = if k' = k then some v else mapGet m k' := by
  induction m with
  | nil =>
      by_cases h : k' = k
      · subst h; simp [mapSet, mapGet]
      · simp only [mapSet, mapGet]
        rw [if_neg (fun hh => h hh.symm), if_neg h]
  | cons e rest ih =>
      simp only [mapSet]
      by_cases h : e.1 = k
      · rw [if_pos h]
        by_cases h' : k' = k
        · subst h'; simp [mapGet]
        · simp only [mapGet]
          have hek : ¬ e.1 = k' := fun hh => h' ((h.symm.trans hh).symm)
          rw [if_neg (fun hh => h' hh.symm), if_neg h', if_neg hek]
      · rw [if_neg h]
        by_cases h' : e.1 = k'
        · have hk : ¬ k' = k := fun hh => h (h'.trans hh)
          simp [mapGet, h', hk]
        · simp [mapGet, h', ih]

theorem mapGet_eq_none_iff (m : List (String × α)) (k : String) :
    mapGet m k = none ↔ k ∉ m.map (·.1) := by
  induction m with
  | nil => simp [mapGet]
  | cons e rest ih =>
      by_cases h : e.1 = k
      · simp [mapGet, h]
      · simp only [mapGet, if_neg h, List.map_cons, List.mem_cons, not_or, ih]
        have hne : ¬ k = e.1 := fun hh => h hh.symm
        tauto

theorem mapGet_mem (m : List (String × α)) (k : String) (v : α)
    (h : mapGet m k = some v) : (k, v) ∈ m := by
  induction m with
  | nil => simp [mapGet] at h
  | cons e rest ih =>
      by_cases he : e.1 = k
      · simp [mapGet, he] at h
        have : e = (k, v) := by cases e; simp_all
        rw [← this]
        exact List.mem_cons_self _ _
      · simp [mapGet, he] at h
        exact List.mem_cons_of_mem _ (ih h)

theorem mem_mapGet (m : List (String × α)) (k : String) (v : α)
    (nd : (m.map (·.1)).Nodup) (h : (k, v) ∈ m) : mapGet m k = some v := by
  induction m with
  | nil => simp at h
  | cons e rest ih =>
      rcases List.mem_cons.mp h with h1 | h1
      · rw [← h1]; simp [mapGet]
      · have hk : k ∈ rest.map (·.1) := List.mem_map.mpr ⟨(k, v), h1, rfl⟩
        have he : ¬ e.1 = k := by
          intro hh
          simp only [List.map_cons, List.nodup_cons] at nd
          exact nd.1 (hh ▸ hk)
        simp only [mapGet, if_neg he]
        exact ih (by simp only [List.map_cons, List.nodup_cons] at nd; exact nd.2) h1

theorem mapSet_append (m : List (String × α)) (k : String) (v : α)
    (h : mapGet m k = none) : mapSet m k v = m ++ [(k, v)] := by
  induction m with
  | nil => simp [mapSet]
  | cons e rest ih =>
      by_cases he : e.1 = k
      · simp [mapGet, he] at h
      · simp [mapGet, he] at h
        simp [mapSet, he, ih h]

theorem keys_mapSet_of_mem (m : List (String × α)) (k : String) (v : α)
    (h : k ∈ m.map (·.1)) : (mapSet m k v).map (·.1) = m.map (·.1) := by
  induction m with
  | nil => simp at h
  | cons e rest ih =>
      by_cases he : e.1 = k
      · simp [mapSet, he]
      · have : k ∈ rest.map (·.1) := by
          rcases List.mem_map.mp h with ⟨a, ha, hak⟩
          rcases List.mem_cons.mp ha with h1 | h1
          · exact absurd (h1 ▸ hak) he
          · exact List.mem_map.mpr ⟨a, h1, hak⟩
        simp [mapSet, he, ih this]

theorem nodupKeys_mapSet (m : List (String × α)) (k : String) (v : α)
    (nd : (m.map (·.1)).Nodup) : ((mapSet m k v).map (·.1)).Nodup := by
  by_cases h : k ∈ m.map (·.1)
  · rw [keys_mapSet_of_mem m k v h]; exact nd
  · rw [mapSet_append m k v ((mapGet_eq_none_iff m k).mpr h)]
    simp only [List.map_append, List.map_cons, List.map_nil]
    refine List.Nodup.append nd (List.nodup_singleton _) ?_
    intro a ha hb
    simp only [List.mem_singleton] at hb
    exact h (hb ▸ ha)

theorem keys_mapDelete (m : List (String × α)) (k : String) :
    (mapDelete m k).map (·.1) = (m.map (·.1)).erase k := by
  induction m with
  | nil => simp [mapDelete]
  | cons e rest ih =>
      by_cases he : e.1 = k
      · simp [mapDelete, he, List.erase_cons_head]
      · simp only [mapDelete, if_neg he, List.map_cons]
        rw [List.erase_cons_tail, ih]
        simp [he]

/-! ### Tally lemmas -/

theorem countOf_bump (m : List (String × Nat)) (k t : String) :
    countOf (bump m k) t = countOf m t + (if t = k then 1 else 0) := by
  unfold countOf bump
  rw [mapGet_mapSet]
  by_cases h : t = k
  · subst h; simp
  · simp [h]

theorem countOf_nil (t : String) : countOf ([] : List (String × Nat)) t = 0 := rfl

theorem countOf_foldl_bump (l : List String) (m : List (String × Nat)) (t : String) :
    countOf (l.foldl bump m) t = countOf m t + l.count t := by
  induction l generalizing m with
  | nil => simp
  | cons a l ih =>
      simp only [List.foldl_cons, ih, countOf_bump, List.count_cons]
      by_cases h : t = a
      · subst h; simp; omega
      · have h2 : ¬ a = t := fun hh => h hh.symm
        simp [h, h2]

theorem countOf_tallyList (l : List String) (t : String) :
    countOf (tallyList l) t = l.count t := by
  unfold tallyList
  rw [countOf_foldl_bump]
  simp [countOf_nil]

theorem nodupKeys_bump (m : List (String × Nat)) (k : String)
    (nd : (m.map (·.1)).Nodup) : ((bump m k).map (·.1)).Nodup :=
  nodupKeys_mapSet m k _ nd

theorem nodupKeys_foldl_bump_cond (ps : List Player) (c : Player → Bool)
    (m : List (String × Nat)) (nd : (m.map (·.1)).Nodup) :
    (((ps.foldl (fun acc p => if c p then acc else bump acc p.id) m)).map (·.1)).Nodup := by
  induction ps generalizing m with
  | nil => simpa
  | cons p ps ih =>
      simp only [List.foldl_cons]
      by_cases h : c p
      · rw [if_pos h]; exact ih m nd
      · rw [if_neg h]; exact ih _ (nodupKeys_bump m p.id nd)

theorem nodupKeys_tallyList (l : List String) : ((tallyList l).map (·.1)).Nodup := by
  unfold tallyList
  have : ∀ m : List (String × Nat), (m.map (·.1)).Nodup → ((l.foldl bump m).map (·.1)).Nodup := by
    induction l with
    | nil => intro m h; simpa
    | cons a l ih => intro m h; exact ih _ (nodupKeys_bump m a h)
  exact this [] (by simp)

theorem keys_bump_sub (m : List (String × Nat)) (k a : String)
    (h : a ∈ (bump m k).map (·.1)) : a ∈ m.map (·.1) ∨ a = k := by
  by_cases hk : k ∈ m.map (·.1)
  · rw [bump, keys_mapSet_of_mem m k _ hk] at h; exact Or.inl h
  · rw [bump, mapSet_append m k _ ((mapGet_eq_none_iff m k).mpr hk)] at h
    simp only [List.map_append, List.map_cons, List.map_nil, List.mem_append,
      List.mem_singleton] at h
    rcases h with h | h
    · exact Or.inl h
    · exact Or.inr h

theorem keys_foldl_bump_sub (l : List String) (m : List (String × Nat)) (a : String)
    (h : a ∈ (l.foldl bump m).map (·.1)) : a ∈ m.map (·.1) ∨ a ∈ l := by
  induction l generalizing m with
  | nil => exact Or.inl (by simpa using h)
  | cons b l ih =>
      simp only [List.foldl_cons] at h
      rcases ih (bump m b) h with h1 | h1
      · rcases keys_bump_sub m b a h1 with h2 | h2
        · exact Or.inl h2
        · exact Or.inr (h2 ▸ List.mem_cons_self b l)
      · exact Or.inr (List.mem_cons_of_mem b h1)

theorem keys_tallyList_sub (l : List String) (a : String)
    (h : a ∈ (tallyList l).map (·.1)) : a ∈ l := by
  unfold tallyList at h
  rcases keys_foldl_bump_sub l [] a h with h1 | h1
  · simp at h1
  · exact h1

/-! ### `Math.max(...values, 0)` lemmas -/

theorem le_maxList (l : List Nat) (x : Nat) (h : x ∈ l) : x ≤ maxList l := by
  induction l with
  | nil => simp at h
  | cons a l ih =>
      rcases List.mem_cons.mp h with h1 | h1
      · subst h1; exact le_max_left _ _
      · exact le_trans (ih h1) (le_max_right _ _)

theorem maxList_choice (l : List Nat) : maxList l = 0 ∨ maxList l ∈ l := by
  induction l with
  | nil => exact Or.inl rfl
  | cons a l ih =>
      have hml : maxList (a :: l) = max a (maxList l) := rfl
      rcases le_total (maxList l) a with h | h
      · right
        rw [hml, max_eq_left h]
        exact List.mem_cons_self _ _
      · rcases ih with h1 | h1
        · left
          rw [hml, h1]
          rw [h1] at h
          omega
        · right
          rw [hml, max_eq_right h]
          exact List.mem_cons_of_mem _ h1

/-! ### Small list utilities -/

theorem one_lt_length_of_two_mem {l : List α} {a b : α}
    (ha : a ∈ l) (hb : b ∈ l) (hab : a ≠ b) : 1 < l.length := by
  match l with
  | [] => simp at ha
  | [x] =>
      simp only [List.mem_singleton] at ha hb
      exact absurd (ha.trans hb.symm) hab
  | x :: y :: rest => simp only [List.length_cons]; omega

theorem exists_pair_of_one_lt_length {l : List α} (nd : l.Nodup) (h : 1 < l.length) :
    ∃ a b, a ∈ l ∧ b ∈ l ∧ a ≠ b := by
  match l, h with
  | x :: y :: rest, _ =>
      refine ⟨x, y, List.mem_cons_self _ _, List.mem_cons_of_mem _ (List.mem_cons_self _ _), ?_⟩
      simp only [List.nodup_cons, List.mem_cons] at nd
      exact fun hh => nd.1 (Or.inl hh)

/-! ### Plurality-winner lemmas over a tally Record -/

theorem countOf_le_maxValues (m : List (String × Nat)) (t : String) :
    countOf m t ≤ maxList (mapValues m) := by
  unfold countOf
  cases h : mapGet m t with
  | none => simp
  | some c =>
      simp only [Option.getD_some]
      exact le_maxList _ c (List.mem_map.mpr ⟨(t, c), mapGet_mem m t c h, rfl⟩)

theorem mem_filterMax_iff (m : List (String × Nat)) (nd : (m.map (·.1)).Nodup)
    (M : Nat) (hM : M ≠ 0) (t : String) :
    t ∈ (m.filter (fun e => e.2 = M)).map (·.1) ↔ countOf m t = M := by
  constructor
  · intro h
    rcases List.mem_map.mp h with ⟨e, he, rfl⟩
    rcases List.mem_filter.mp he with ⟨hem, heM⟩
    have heM' : e.2 = M := by simpa using heM
    have : mapGet m e.1 = some e.2 := mem_mapGet m e.1 e.2 nd (by cases e; exact hem)
    simp [countOf, this, heM']
  · intro h
    cases hg : mapGet m t with
    | none => simp [countOf, hg] at h; exact absurd h.symm hM
    | some c =>
        have hc : c = M := by simpa [countOf, hg] using h
        subst hc
        exact List.mem_map.mpr ⟨(t, c), List.mem_filter.mpr ⟨mapGet_mem m t c hg, by simp⟩, rfl⟩

theorem filterMax_keys_nodup (m : List (String × Nat)) (p : String × Nat → Bool)
    (nd : (m.map (·.1)).Nodup) : ((m.filter p).map (·.1)).Nodup :=
  List.Nodup.sublist (List.Sublist.map _ (List.filter_sublist m)) nd

theorem filterMax_ne_nil (m : List (String × Nat))
    (hM : maxList (mapValues m) ≠ 0) :
    (m.filter (fun e => e.2 = maxList (mapValues m))).map (·.1) ≠ [] := by
  rcases maxList_choice (mapValues m) with h | h
  · exact absurd h hM
  · rcases List.mem_map.mp h with ⟨e, he, hev⟩
    have : e ∈ m.filter (fun e => e.2 = maxList (mapValues m)) :=
      List.mem_filter.mpr ⟨he, by simp [hev]⟩
    intro hnil
    exact List.not_mem_nil e.1 (hnil ▸ List.mem_map.mpr ⟨e, this, rfl⟩)

/-! ### The voting tally -/

theorem countOf_foldl_bump_cond (ps : List Player) (c : Player → Bool)
    (m : List (String × Nat)) (t : String) :
    countOf (ps.foldl (fun acc p => if c p then acc else bump acc p.id) m) t
      = countOf m t + ((ps.filter (fun p => ¬ c p ∧ p.id = t))).length := by
  induction ps generalizing m with
  | nil => simp
  | cons p ps ih =>
      simp only [List.foldl_cons, List.filter_cons]
      by_cases h : c p = true
      · rw [if_pos h, ih m]
        have hd : (decide (¬ c p = true ∧ p.id = t)) = false := by simp [h]
        rw [hd]
        simp
      · rw [if_neg h, ih (bump m p.id), countOf_bump]
        by_cases ht : p.id = t
        · have hd : (decide (¬ c p = true ∧ p.id = t)) = true := by simp [h, ht]
          rw [hd]
          simp [ht.symm]
          omega
        · have hd : (decide (¬ c p = true ∧ p.id = t)) = false := by simp [h, ht]
          rw [hd]
          have hnt : ¬ t = p.id := fun hh => ht hh.symm
          simp [hnt]

theorem keys_foldl_bump_cond_sub (ps : List Player) (c : Player → Bool)
    (m : List (String × Nat)) (a : String)
    (h : a ∈ ((ps.foldl (fun acc p => if c p then acc else bump acc p.id) m)).map (·.1)) :
    a ∈ m.map (·.1) ∨ ∃ p ∈ ps, p.id = a := by
  induction ps generalizing m with
  | nil => exact Or.inl (by simpa using h)
  | cons p ps ih =>
      simp only [List.foldl_cons] at h
      by_cases hc : c p
      · rw [if_pos hc] at h
        rcases ih m h with h1 | ⟨q, hq, hqa⟩
        · exact Or.inl h1
        · exact Or.inr ⟨q, List.mem_cons_of_mem _ hq, hqa⟩
      · rw [if_neg hc] at h
        rcases ih (bump m p.id) h with h1 | ⟨q, hq, hqa⟩
        · rcases keys_bump_sub m p.id a h1 with h2 | h2
          · exact Or.inl h2
          · exact Or.inr ⟨p, List.mem_cons_self _ _, h2.symm⟩
        · exact Or.inr ⟨q, List.mem_cons_of_mem _ hq, hqa⟩

namespace Room

/-- The tally the spec describes: the explicitly recorded votes for `t`,
plus one automatic self-vote for each living player who has not voted. -/
def specTally (r : Room) (t : String) : Nat :=
  (mapValues r.votes).count t +
    ((getAlivePlayers r).filter
      (fun p => ¬ mapHas r.votes p.id ∧ p.id = t)).length

theorem countOf_voteCounts (r : Room) (t : String) :
    countOf (voteCounts r) t = specTally r t := by
  unfold voteCounts specTally
  rw [countOf_foldl_bump_cond, countOf_tallyList]

theorem nodupKeys_voteCounts (r : Room) :
    ((voteCounts r).map (·.1)).Nodup := by
  unfold voteCounts
  exact nodupKeys_foldl_bump_cond _ _ _ (nodupKeys_tallyList _)

end Room

namespace Room

theorem processVoting_isTie_eq (r : Room) :
    (processVoting r).2.isTie = decide (1 < (votingWinners r).length ∨ votingMax r = 0) := rfl

theorem processVoting_eliminatedId_eq (r : Room) :
    (processVoting r).2.eliminatedId =
      (if (processVoting r).2.isTie then none else (votingWinners r).head?) := rfl

theorem processVoting_players_eq (r : Room) :
    (processVoting r).1.players =
      (match (processVoting r).2.eliminatedId with
       | some e =>
           if e ≠ "" then markDeadByKey r.players e
           else r.players
       | none => r.players) := rfl

theorem processVoting_players_some (r : Room) (e : String)
    (h : (processVoting r).2.eliminatedId = some e) :
    (processVoting r).1.players =
      (if e ≠ "" then markDeadByKey r.players e else r.players) := by
  rw [processVoting_players_eq, h]

theorem processVoting_players_none (r : Room)
    (h : (processVoting r).2.eliminatedId = none) :
    (processVoting r).1.players = r.players := by
  rw [processVoting_players_eq, h]

/-- C2: `processVoting` tallies the explicit votes plus one automatic
self-vote per living non-voter; exactly one target holding the nonzero
maximum is eliminated (marked not alive); `isTie` holds iff two or more
targets share the maximum tally or the maximum is zero; on a tie nobody is
eliminated and no player dies; votes and discussion state are cleared. -/
theorem processVoting_spec (r : Room) (hids : ∀ e ∈ r.players, e.1 ≠ "") :
    (∀ t, countOf (processVoting r).2.votes t = specTally r t) ∧
    (∀ t, specTally r t ≤ votingMax r) ∧
    (votingMax r = 0 ∨ ∃ t, specTally r t = votingMax r) ∧
    ((processVoting r).2.isTie = true ↔
      votingMax r = 0 ∨
        ∃ t₁ t₂, t₁ ≠ t₂ ∧ specTally r t₁ = votingMax r ∧ specTally r t₂ = votingMax r) ∧
    ((processVoting r).2.isTie = false →
      ∃ e, (processVoting r).2.eliminatedId = some e ∧
        specTally r e = votingMax r ∧ 0 < votingMax r ∧
        (∀ t, specTally r t = votingMax r → t = e) ∧
        (∀ p, mapGet (processVoting r).1.players e = some p → p.isAlive = false)) ∧
    ((processVoting r).2.isTie = true →
      (processVoting r).2.eliminatedId = none ∧ (processVoting r).1.players = r.players) ∧
    (processVoting r).1.votes = [] ∧
    (processVoting r).1.discussionState = none := by
  have hnd : ((voteCounts r).map (·.1)).Nodup := nodupKeys_voteCounts r
  have hWnd : (votingWinners r).Nodup := by
    unfold votingWinners
    exact filterMax_keys_nodup _ _ hnd
  have hmemW : ∀ (hM : votingMax r ≠ 0) (t : String),
      t ∈ votingWinners r ↔ specTally r t = votingMax r := by
    intro hM t
    unfold votingWinners
    rw [mem_filterMax_iff _ hnd _ hM t, countOf_voteCounts]
  refine ⟨?_, ?_, ?_, ?_, ?_, ?_, rfl, rfl⟩
  · intro t
    exact countOf_voteCounts r t
  · intro t
    rw [← countOf_voteCounts]
    exact countOf_le_maxValues _ t
  · rcases maxList_choice (mapValues (voteCounts r)) with h | h
    · exact Or.inl h
    · rcases List.mem_map.mp h with ⟨e, he, hev⟩
      right
      refine ⟨e.1, ?_⟩
      rw [← countOf_voteCounts]
      have hge : mapGet (voteCounts r) e.1 = some e.2 := mem_mapGet _ _ _ hnd (by cases e; exact he)
      show countOf (voteCounts r) e.1 = votingMax r
      unfold votingMax
      simp [countOf, hge, hev]
  · rw [processVoting_isTie_eq, decide_eq_true_eq]
    constructor
    · rintro (h | h)
      · by_cases hM : votingMax r = 0
        · exact Or.inl hM
        · right
          obtain ⟨a, b, ha, hb, hab⟩ := exists_pair_of_one_lt_length hWnd h
          exact ⟨a, b, hab, (hmemW hM a).mp ha, (hmemW hM b).mp hb⟩
      · exact Or.inl h
    · rintro (h | ⟨t₁, t₂, hne, h1, h2⟩)
      · exact Or.inr h
      · by_cases hM : votingMax r = 0
        · exact Or.inr hM
        · exact Or.inl (one_lt_length_of_two_mem
            ((hmemW hM t₁).mpr h1) ((hmemW hM t₂).mpr h2) hne)
  · intro h
    rw [processVoting_isTie_eq] at h
    have h' : ¬ (1 < (votingWinners r).length ∨ votingMax r = 0) := by
      simpa using h
    push_neg at h'
    obtain ⟨hlen, hM⟩ := h'
    have hWne : votingWinners r ≠ [] := by
      unfold votingWinners
      exact filterMax_ne_nil (voteCounts r) hM
    have hlen1 : (votingWinners r).length = 1 := by
      have : 0 < (votingWinners r).length := List.length_pos.mpr hWne
      omega
    obtain ⟨e, hWe⟩ := List.length_eq_one.mp hlen1
    have helim : (processVoting r).2.eliminatedId = some e := by
      rw [processVoting_eliminatedId_eq, processVoting_isTie_eq]
      have : (decide (1 < (votingWinners r).length ∨ votingMax r = 0)) = false := by
        simp [hlen1, hM]
      rw [this]
      simp [hWe]
    have heW : e ∈ votingWinners r := by rw [hWe]; exact List.mem_singleton_self e
    refine ⟨e, helim, (hmemW hM e).mp heW, by omega, ?_, ?_⟩
    · intro t ht
      have : t ∈ votingWinners r := (hmemW hM t).mpr ht
      rw [hWe] at this
      exact List.mem_singleton.mp this
    · intro p hp
      by_cases he : e = ""
      · subst he
        have hpl : (processVoting r).1.players = r.players := by
          rw [processVoting_players_some r "" helim, if_neg (by simp)]
        rw [hpl] at hp
        exact absurd rfl (hids _ (mapGet_mem _ _ _ hp))
      · rcases hg : mapGet r.players e with _ | q
        · have hpl : (processVoting r).1.players = r.players := by
            rw [processVoting_players_some r e helim, if_pos he]
            unfold markDeadByKey
            rw [hg]
          rw [hpl, hg] at hp
          cases hp
        · have hpl : (processVoting r).1.players =
              mapSet r.players e ({ q with isAlive := false }) := by
            rw [processVoting_players_some r e helim, if_pos he]
            unfold markDeadByKey
            rw [hg]
          rw [hpl, mapGet_mapSet, if_pos rfl] at hp
          cases hp
          rfl
  · intro h
    rw [processVoting_isTie_eq] at h
    constructor
    · rw [processVoting_eliminatedId_eq, processVoting_isTie_eq, h]
      rfl
    · refine processVoting_players_none r ?_
      rw [processVoting_eliminatedId_eq, processVoting_isTie_eq, h]
      rfl

end Room

/-! ### Concrete rooms used by witnesses and counterexamples -/

def defaultSettings : GameSettings :=
  { nightDuration := 30, discussionDuration := 60, dayDuration := 60, votingDuration := 30,
    individualDiscussionDuration := 15, individualVotingDuration := 15, mafiaCount := 2,
    hasDoctor := true, hasSheriff := true, minPlayers := 4, maxPlayers := 16 }

def mkPlayer (i n : String) (alive host : Bool) (ro : Option Role) : Player :=
  { id := i, name := n, isAlive := alive, isHost := host, role := ro }

def baseRoom : Room :=
  { id := "room-1", code := "ABCDEF", hostId := "a", players := [],
    phase := GamePhase.lobby, round := 0, endTime := none, settings := defaultSettings,
    discussionState := none, nightActions := [], votes := [], chatMessages := [],
    createdAt := 0, connectedSockets := [], isEnded := false,
    lastVotingResult := none, lastNightResult := none }

def strayPlayersList : List (String × Player) :=
  [("a", mkPlayer "a" "Ann" true true (some Role.citizen))]

/-- A voting room where the only living player voted for a non-player id. -/
def strayVoteRoom : Room :=
  { baseRoom with
      phase := GamePhase.voting, players := strayPlayersList, votes := [("a", "x")] }

def fourPlayersList : List (String × Player) :=
  [("a", mkPlayer "a" "Ann" true true (some Role.mafia)),
   ("b", mkPlayer "b" "Bob" true false (some Role.citizen)),
   ("c", mkPlayer "c" "Cal" true false (some Role.citizen)),
   ("d", mkPlayer "d" "Dan" true false (some Role.citizen))]

/-- A 4-player voting room: a, b, c vote for d; d never votes. -/
def votingRoom : Room :=
  { baseRoom with
      phase := GamePhase.voting, players := fourPlayersList,
      votes := [("a", "d"), ("b", "d"), ("c", "d")] }

theorem processVoting_spec_witness :
    (∀ e ∈ votingRoom.players, e.1 ≠ "") ∧
      (Room.processVoting votingRoom).1.votes = [] :=
  ⟨by decide, (Room.processVoting_spec votingRoom (by decide)).2.2.2.2.2.2.1⟩

/-- C5 counterexample: with a recorded vote for the non-player id `"x"`,
`processVoting` returns `eliminatedId = "x"`, which is outside the set of
players alive at the start of the sequence. -/
theorem processVoting_eliminates_stray_target :
    (Room.processVoting strayVoteRoom).2.eliminatedId = some "x" ∧
      (∀ e ∈ strayVoteRoom.players, e.1 ≠ "x" ∧ e.2.id ≠ "x") := by
  constructor
  · decide
  · decide

/-- C5 (amended): provided every recorded vote targets a living player,
`resolveVoting` never returns an `eliminatedId` outside the set of players
alive at the start of the sequence. -/
theorem processVoting_eliminated_is_alive (r : Room)
    (hv : ∀ a ∈ r.votes, ∃ p ∈ Room.getAlivePlayers r, p.id = a.2) :
    ∀ e, (Room.processVoting r).2.eliminatedId = some e →
      ∃ p ∈ Room.getAlivePlayers r, p.id = e := by
  intro e he
  rw [Room.processVoting_eliminatedId_eq] at he
  cases ht : (Room.processVoting r).2.isTie with
  | true => rw [ht] at he; cases he
  | false =>
      rw [ht] at he
      simp only [Bool.false_eq_true, if_false] at he
      have heW : e ∈ Room.votingWinners r := by
        cases hW : Room.votingWinners r with
        | nil => rw [hW] at he; cases he
        | cons a t =>
            rw [hW] at he
            simp only [List.head?_cons, Option.some.injEq] at he
            rw [← he]
            exact List.mem_cons_self _ _
      have hkeys : e ∈ (Room.voteCounts r).map (·.1) := by
        unfold Room.votingWinners at heW
        rcases List.mem_map.mp heW with ⟨x, hx, hxe⟩
        exact List.mem_map.mpr ⟨x, (List.mem_filter.mp hx).1, hxe⟩
      unfold Room.voteCounts at hkeys
      rcases keys_foldl_bump_cond_sub _ _ _ _ hkeys with h1 | ⟨p, hp, hpe⟩
      · have : e ∈ mapValues r.votes := keys_tallyList_sub _ _ h1
        rcases List.mem_map.mp this with ⟨a, ha, hae⟩
        rcases hv a ha with ⟨p, hp, hpa⟩
        exact ⟨p, hp, by rw [hpa, hae]⟩
      · exact ⟨p, hp, hpe⟩

theorem processVoting_eliminated_is_alive_witness :
    (∀ a ∈ votingRoom.votes, ∃ p ∈ Room.getAlivePlayers votingRoom, p.id = a.2) ∧
      (∃ p ∈ Room.getAlivePlayers votingRoom, p.id = "d") :=
  ⟨by decide,
   processVoting_eliminated_is_alive votingRoom (by decide) "d" (by decide)⟩

namespace Room

theorem processNightPhase_killedId_eq (r : Room) (pick : Nat) :
    (processNightPhase r pick).2.killedId =
      (if 1 < (livingMafia r).length ∧ 0 < (mafiaActions r).length then
        if (pluralityTargets r).length = 1 then (pluralityTargets r).head?
        else if 1 < (pluralityTargets r).length then (pluralityTargets r).get? pick
        else none
      else if 0 < (mafiaActions r).length then ((mafiaActions r).head?).map (·.2)
      else none) := rfl

theorem processNightPhase_savedId_eq (r : Room) (pick : Nat) :
    (processNightPhase r pick).2.savedId =
      (r.nightActions.find? (fun a => actorHasRole r a.1 Role.doctor)).map (·.2) := rfl

theorem processNightPhase_players_eq (r : Room) (pick : Nat) :
    (processNightPhase r pick).1.players =
      (match (processNightPhase r pick).2.killedId with
       | some k =>
           if k ≠ "" ∧ ¬ (processNightPhase r pick).2.savedId = some k then
             markDeadByKey r.players k
           else r.players
       | none => r.players) := rfl

theorem processNightPhase_players_some (r : Room) (pick : Nat) (k : String)
    (h : (processNightPhase r pick).2.killedId = some k) :
    (processNightPhase r pick).1.players =
      (if k ≠ "" ∧ ¬ (processNightPhase r pick).2.savedId = some k then
        markDeadByKey r.players k
      else r.players) := by
  rw [processNightPhase_players_eq, h]

/-- C7: in `processNightPhase`, when the doctor's save target equals the
selected kill target no player's `isAlive` flag flips (the players map is
unchanged); when a nonempty kill target exists and differs from the save
target, the corresponding player entry is marked not alive. -/
theorem processNightPhase_save_spec (r : Room) (pick : Nat) :
    ((processNightPhase r pick).2.savedId = (processNightPhase r pick).2.killedId →
      (processNightPhase r pick).1.players = r.players) ∧
    (∀ k, (processNightPhase r pick).2.killedId = some k → k ≠ "" →
      (processNightPhase r pick).2.savedId ≠ some k →
      ∀ p, mapGet (processNightPhase r pick).1.players k = some p → p.isAlive = false) := by
  constructor
  · intro hsv
    cases hk : (processNightPhase r pick).2.killedId with
    | none => rw [processNightPhase_players_eq, hk]
    | some k =>
        rw [processNightPhase_players_some r pick k hk]
        rw [if_neg]
        intro hcond
        rw [hsv, hk] at hcond
        exact hcond.2 rfl
  · intro k hk hke hks p hp
    rw [processNightPhase_players_some r pick k hk, if_pos ⟨hke, hks⟩] at hp
    rcases hg : mapGet r.players k with _ | q
    · unfold markDeadByKey at hp
      rw [hg] at hp
      rw [hg] at hp
      cases hp
    · unfold markDeadByKey at hp
      rw [hg, mapGet_mapSet, if_pos rfl] at hp
      cases hp
      rfl

end Room

def nightSavePlayersList : List (String × Player) :=
  [("a", mkPlayer "a" "Ann" true true (some Role.mafia)),
   ("b", mkPlayer "b" "Bob" true false (some Role.citizen)),
   ("c", mkPlayer "c" "Cal" true false (some Role.doctor))]

/-- A night room: the sole mafia targets b and the doctor saves b. -/
def nightSaveRoom : Room :=
  { baseRoom with
      phase := GamePhase.night, players := nightSavePlayersList,
      nightActions := [("a", "b"), ("c", "b")] }

theorem processNightPhase_save_spec_witness :
    ((Room.processNightPhase nightSaveRoom 0).2.savedId =
        (Room.processNightPhase nightSaveRoom 0).2.killedId) ∧
      (Room.processNightPhase nightSaveRoom 0).1.players = nightSaveRoom.players :=
  ⟨by decide, (Room.processNightPhase_save_spec nightSaveRoom 0).1 (by decide)⟩

theorem actorHasRole_iff (r : Room) (id : String) (ro : Role) :
    Room.actorHasRole r id ro = true ↔
      ∃ p, mapGet r.players id = some p ∧ p.role = some ro := by
  cases h : mapGet r.players id with
  | none => simp [Room.actorHasRole, h]
  | some p => simp [Room.actorHasRole, h]

theorem mafiaActions_keys_nodup (r : Room)
    (hnd : (r.nightActions.map (·.1)).Nodup) :
    ((Room.mafiaActions r).map (·.1)).Nodup :=
  List.Nodup.sublist (List.Sublist.map _ (List.filter_sublist r.nightActions)) hnd

/-- A mafia action's actor is a living mafia member (under the invariant that
recorded actions come from living players). -/
theorem mafiaActions_actor_living (r : Room) (a : String × String)
    (ha : a ∈ Room.mafiaActions r)
    (halive : ∀ b ∈ r.nightActions, ∀ e ∈ r.players, e.1 = b.1 →
      e.2.role = some Role.mafia → e.2.isAlive = true) :
    ∃ p, mapGet r.players a.1 = some p ∧ (a.1, p) ∈ r.players ∧
      p ∈ Room.livingMafia r ∧ p.role = some Role.mafia := by
  obtain ⟨hmem, hrole⟩ := List.mem_filter.mp ha
  obtain ⟨p, hget, hp⟩ := (actorHasRole_iff r a.1 Role.mafia).mp hrole
  have hal : p.isAlive = true :=
    halive a hmem (a.1, p) (mapGet_mem _ _ _ hget) rfl hp
  have hin : (a.1, p) ∈ r.players := mapGet_mem _ _ _ hget
  refine ⟨p, hget, hin, ?_, hp⟩
  unfold Room.livingMafia
  refine List.mem_filter.mpr ⟨List.mem_map.mpr ⟨(a.1, p), hin, rfl⟩, ?_⟩
  simp [hp, hal]

theorem count_mafiaTargets_eq (r : Room) (t : String) (ht : t ≠ "") :
    countOf (Room.mafiaTally r) t = ((Room.mafiaActions r).map (·.2)).count t := by
  unfold Room.mafiaTally
  rw [countOf_tallyList, List.count_filter]
  simp [ht]

/-- The plurality-target list is exactly the set of nonempty targets whose
mafia vote count is positive and maximal. -/
theorem mem_pluralityTargets_iff (r : Room) (t : String) :
    t ∈ Room.pluralityTargets r ↔
      (t ≠ "" ∧ 0 < ((Room.mafiaActions r).map (·.2)).count t ∧
        ∀ u, u ≠ "" →
          ((Room.mafiaActions r).map (·.2)).count u ≤
            ((Room.mafiaActions r).map (·.2)).count t) := by
  have hnd : ((Room.mafiaTally r).map (·.1)).Nodup := nodupKeys_tallyList _
  constructor
  · intro h
    rcases List.mem_map.mp h with ⟨e, he, hte⟩
    obtain ⟨hmem, hval⟩ := List.mem_filter.mp he
    have hval' : e.2 = Room.mafiaMax r := by simpa using hval
    have hkey : t ∈ (Room.mafiaTally r).map (·.1) := List.mem_map.mpr ⟨e, hmem, hte⟩
    have htgt : t ∈ ((Room.mafiaActions r).map (·.2)).filter (fun u => ¬ u = "") := by
      unfold Room.mafiaTally at hkey
      exact keys_tallyList_sub _ _ hkey
    have ht : ¬ t = "" := by
      have := (List.mem_filter.mp htgt).2
      simpa using this
    have hcnt : countOf (Room.mafiaTally r) t = Room.mafiaMax r := by
      have : mapGet (Room.mafiaTally r) t = some e.2 := by
        rw [← hte]
        exact mem_mapGet _ _ _ hnd (by cases e; exact hmem)
      simp [countOf, this, hval']
    have hcnt' : ((Room.mafiaActions r).map (·.2)).count t = Room.mafiaMax r := by
      rw [← count_mafiaTargets_eq r t ht, hcnt]
    refine ⟨ht, ?_, ?_⟩
    · rw [hcnt']
      rcases Nat.eq_zero_or_pos (Room.mafiaMax r) with h0 | h0
      · exfalso
        have := (List.mem_filter.mp htgt).1
        have hpos : 0 < ((Room.mafiaActions r).map (·.2)).count t :=
          List.count_pos_iff.mpr this
        rw [hcnt', h0] at hpos
        omega
      · exact h0
    · intro u hu
      rw [hcnt', ← count_mafiaTargets_eq r u hu]
      exact countOf_le_maxValues _ u
  · rintro ⟨ht, hpos, hmaxi⟩
    have hcnt : countOf (Room.mafiaTally r) t = ((Room.mafiaActions r).map (·.2)).count t :=
      count_mafiaTargets_eq r t ht
    have hle : countOf (Room.mafiaTally r) t ≤ Room.mafiaMax r := countOf_le_maxValues _ t
    have hge : Room.mafiaMax r ≤ ((Room.mafiaActions r).map (·.2)).count t := by
      rcases maxList_choice (mapValues (Room.mafiaTally r)) with h0 | hmem
      · unfold Room.mafiaMax
        omega
      · rcases List.mem_map.mp hmem with ⟨e, he, hev⟩
        have hkey : e.1 ∈ (Room.mafiaTally r).map (·.1) := List.mem_map.mpr ⟨e, he, rfl⟩
        have htgt : e.1 ∈ ((Room.mafiaActions r).map (·.2)).filter (fun u => ¬ u = "") := by
          unfold Room.mafiaTally at hkey
          exact keys_tallyList_sub _ _ hkey
        have hu : ¬ e.1 = "" := by
          have := (List.mem_filter.mp htgt).2
          simpa using this
        have : countOf (Room.mafiaTally r) e.1 = e.2 := by
          have hg : mapGet (Room.mafiaTally r) e.1 = some e.2 :=
            mem_mapGet _ _ _ hnd (by cases e; exact he)
          simp [countOf, hg]
        have hcu : ((Room.mafiaActions r).map (·.2)).count e.1 = Room.mafiaMax r := by
          rw [← count_mafiaTargets_eq r e.1 hu, this, hev]
          rfl
        calc Room.mafiaMax r = ((Room.mafiaActions r).map (·.2)).count e.1 := hcu.symm
          _ ≤ ((Room.mafiaActions r).map (·.2)).count t := hmaxi e.1 hu
    have hM : countOf (Room.mafiaTally r) t = Room.mafiaMax r := by omega
    have hM0 : Room.mafiaMax r ≠ 0 := by omega
    unfold Room.pluralityTargets
    exact (mem_filterMax_iff _ hnd _ hM0 t).mpr hM

/-- C1: kill-target selection in `processNightPhase`.  With more than one
living mafia member and at least one recorded mafia action, the mafia target
votes are tallied and the plurality winner is selected, with the injected
random index choosing among targets tied for the plurality (each position of
the tied list is selected by the corresponding draw); with exactly one living
mafia member, that member's single recorded target is used directly. -/
theorem processNightPhase_kill_selection (r : Room) (pick : Nat)
    (hnd : (r.nightActions.map (·.1)).Nodup)
    (halive : ∀ b ∈ r.nightActions, ∀ e ∈ r.players, e.1 = b.1 →
      e.2.role = some Role.mafia → e.2.isAlive = true) :
    (1 < (Room.livingMafia r).length → 0 < (Room.mafiaActions r).length →
      (∀ t, t ∈ Room.pluralityTargets r ↔
        (t ≠ "" ∧ 0 < ((Room.mafiaActions r).map (·.2)).count t ∧
          ∀ u, u ≠ "" →
            ((Room.mafiaActions r).map (·.2)).count u ≤
              ((Room.mafiaActions r).map (·.2)).count t)) ∧
      ((Room.pluralityTargets r).length = 1 →
        (Room.processNightPhase r pick).2.killedId = (Room.pluralityTargets r).head?) ∧
      (1 < (Room.pluralityTargets r).length →
        (Room.processNightPhase r pick).2.killedId = (Room.pluralityTargets r).get? pick) ∧
      (∀ k, (Room.processNightPhase r pick).2.killedId = some k →
        k ∈ Room.pluralityTargets r)) ∧
    ((Room.livingMafia r).length = 1 → 0 < (Room.mafiaActions r).length →
      ∃ k t m, Room.livingMafia r = [m] ∧ Room.mafiaActions r = [(k, t)] ∧
        mapGet r.players k = some m ∧
        (Room.processNightPhase r pick).2.killedId = some t) := by
  constructor
  · intro h1 h2
    have hkill : (Room.processNightPhase r pick).2.killedId =
        (if (Room.pluralityTargets r).length = 1 then (Room.pluralityTargets r).head?
         else if 1 < (Room.pluralityTargets r).length then (Room.pluralityTargets r).get? pick
         else none) := by
      rw [Room.processNightPhase_killedId_eq, if_pos ⟨h1, h2⟩]
    refine ⟨fun t => mem_pluralityTargets_iff r t, ?_, ?_, ?_⟩
    · intro hlen
      rw [hkill, if_pos hlen]
    · intro hlen
      rw [hkill, if_neg (by omega), if_pos hlen]
    · intro k hk
      rw [hkill] at hk
      by_cases hl1 : (Room.pluralityTargets r).length = 1
      · rw [if_pos hl1] at hk
        cases hP : Room.pluralityTargets r with
        | nil => rw [hP] at hk; cases hk
        | cons a t =>
            rw [hP] at hk
            simp only [List.head?_cons, Option.some.injEq] at hk
            rw [← hk]
            exact List.mem_cons_self _ _
      · rw [if_neg hl1] at hk
        by_cases hl2 : 1 < (Room.pluralityTargets r).length
        · rw [if_pos hl2] at hk
          exact List.get?_mem hk
        · rw [if_neg hl2] at hk
          cases hk
  · intro h1 h2
    obtain ⟨m, hm⟩ := List.length_eq_one.mp h1
    have hactsnd : ((Room.mafiaActions r).map (·.1)).Nodup := mafiaActions_keys_nodup r hnd
    have hsame : ∀ a₁ ∈ Room.mafiaActions r, ∀ a₂ ∈ Room.mafiaActions r, a₁.1 = a₂.1 := by
      intro a₁ ha₁ a₂ ha₂
      by_contra hne
      obtain ⟨p₁, hg₁, hin₁, hl₁, hr₁⟩ := mafiaActions_actor_living r a₁ ha₁ halive
      obtain ⟨p₂, hg₂, hin₂, hl₂, hr₂⟩ := mafiaActions_actor_living r a₂ ha₂ halive
      have hp₁ : p₁ = m := by rw [hm] at hl₁; exact List.mem_singleton.mp hl₁
      have hp₂ : p₂ = m := by rw [hm] at hl₂; exact List.mem_singleton.mp hl₂
      subst hp₁
      rw [hp₂] at hin₂
      have hdist : (a₁.1, p₁) ≠ (a₂.1, p₁) := by
        intro hh
        injection hh with hh1 hh2
        exact hne hh1
      have hal : p₁.isAlive = true :=
        halive a₁ (List.mem_filter.mp ha₁).1 (a₁.1, p₁) hin₁ rfl hr₁
      have hlm2 : 1 < (r.players.filter
          (fun e => e.2.role = some Role.mafia ∧ e.2.isAlive)).length := by
        refine one_lt_length_of_two_mem (a := (a₁.1, p₁)) (b := (a₂.1, p₁)) ?_ ?_ hdist
        · exact List.mem_filter.mpr ⟨hin₁, by simp [hr₁, hal]⟩
        · exact List.mem_filter.mpr ⟨hin₂, by simp [hr₁, hal]⟩
      have hlm : (Room.livingMafia r).length = (r.players.filter
          (fun e => e.2.role = some Role.mafia ∧ e.2.isAlive)).length := by
        unfold Room.livingMafia mapValues
        rw [← List.countP_eq_length_filter, ← List.countP_eq_length_filter,
          List.countP_map]
        rfl
      rw [h1] at hlm
      omega
    have hsingle : ∃ a, Room.mafiaActions r = [a] := by
      cases hacts : Room.mafiaActions r with
      | nil => rw [hacts] at h2; simp at h2
      | cons a rest =>
          cases hrest : rest with
          | nil => exact ⟨a, rfl⟩
          | cons b rest' =>
              exfalso
              rw [hacts, hrest] at hactsnd hsame
              have hab : a.1 = b.1 := hsame a (List.mem_cons_self _ _) b
                (List.mem_cons_of_mem _ (List.mem_cons_self _ _))
              simp only [List.map_cons, List.nodup_cons, List.mem_cons] at hactsnd
              exact hactsnd.1 (Or.inl hab)
    obtain ⟨a, hacts⟩ := hsingle
    obtain ⟨p, hg, hin, hl, hr⟩ := mafiaActions_actor_living r a
      (hacts ▸ List.mem_singleton_self a) halive
    have hp : p = m := by rw [hm] at hl; exact List.mem_singleton.mp hl
    refine ⟨a.1, a.2, m, hm, by rw [hacts], hp ▸ hg, ?_⟩
    rw [Room.processNightPhase_killedId_eq, if_neg (by rw [h1]; omega), if_pos h2, hacts]
    rfl

def nightTiePlayersList : List (String × Player) :=
  [("a", mkPlayer "a" "Ann" true true (some Role.mafia)),
   ("b", mkPlayer "b" "Bob" true false (some Role.mafia)),
   ("c", mkPlayer "c" "Cal" true false (some Role.citizen)),
   ("d", mkPlayer "d" "Dan" true false (some Role.citizen))]

/-- A night room where two living mafia members split their votes 1-1. -/
def nightTieRoom : Room :=
  { baseRoom with
      phase := GamePhase.night, players := nightTiePlayersList,
      nightActions := [("a", "c"), ("b", "d")] }

theorem processNightPhase_kill_selection_witness :
    (nightTieRoom.nightActions.map (·.1)).Nodup ∧
      1 < (Room.livingMafia nightTieRoom).length ∧
      (Room.processNightPhase nightTieRoom 1).2.killedId =
        (Room.pluralityTargets nightTieRoom).get? 1 :=
  ⟨by decide, by decide,
   ((processNightPhase_kill_selection nightTieRoom 1 (by decide) (by decide)).1
      (by decide) (by decide)).2.2.1 (by decide)⟩

/-! ### C9: `nextSpeaker` -/

/-- A discussion room already in the general (non-individual) sub-phase. -/
def generalDiscussionRoom : Room :=
  { baseRoom with
      phase := GamePhase.discussion, players := fourPlayersList,
      discussionState := some
        { currentSpeakerId := none, speakerOrder := ["a", "b", "c", "d"],
          currentSpeakerIndex := 3, isIndividualPhase := false,
          speakingTimePerPlayer := 15 } }

/-- C9 counterexample: during an active discussion sequence that has reached
the general sub-phase, `nextSpeaker` returns false, not true. -/
theorem nextSpeaker_false_in_general_phase :
    generalDiscussionRoom.phase = GamePhase.discussion ∧
      generalDiscussionRoom.discussionState.isSome = true ∧
      (Room.nextSpeaker generalDiscussionRoom 5).2 = false := by decide

theorem nextSpeaker_eq_none (r : Room) (now : Nat) (h : r.discussionState = none) :
    Room.nextSpeaker r now = (r, false) := by
  simp [Room.nextSpeaker, h]

theorem nextSpeaker_eq_general (r : Room) (now : Nat) (ds : DiscussionState)
    (h : r.discussionState = some ds) (hip : ds.isIndividualPhase = false) :
    Room.nextSpeaker r now = (r, false) := by
  simp [Room.nextSpeaker, h, hip]

theorem nextSpeaker_eq_advance (r : Room) (now : Nat) (ds : DiscussionState)
    (h : r.discussionState = some ds) (hip : ds.isIndividualPhase = true)
    (hidx : ds.currentSpeakerIndex + 1 < ds.speakerOrder.length) :
    Room.nextSpeaker r now =
      (Room.updateEndTime
        { r with
            discussionState := some
              { ds with
                  currentSpeakerIndex := ds.currentSpeakerIndex + 1,
                  currentSpeakerId := ds.speakerOrder.get? (ds.currentSpeakerIndex + 1) } }
        r.settings.individualDiscussionDuration now, true) := by
  simp [Room.nextSpeaker, h, hip, hidx]

theorem nextSpeaker_eq_flip (r : Room) (now : Nat) (ds : DiscussionState)
    (h : r.discussionState = some ds) (hip : ds.isIndividualPhase = true)
    (hidx : ¬ (ds.currentSpeakerIndex + 1 < ds.speakerOrder.length)) :
    Room.nextSpeaker r now =
      (Room.updateEndTime
        { r with
            discussionState := some
              { ds with
                  isIndividualPhase := false, currentSpeakerId := none } }
        r.settings.discussionDuration now, true) := by
  simp [Room.nextSpeaker, h, hip, hidx]

/-- C9 (amended): `nextSpeaker` returns true iff a discussion state exists
and is still in the individual sub-phase; it then either advances to the next
speaker with a fresh per-speaker deadline or, on exhausting individual turns,
flips to general discussion (`isIndividualPhase = false`,
`currentSpeakerId = null`, deadline = now + general duration); it returns
false (leaving the room unchanged) both when no discussion state exists and
when the general sub-phase has already begun. -/
theorem nextSpeaker_spec (r : Room) (now : Nat) :
    ((Room.nextSpeaker r now).2 = true ↔
      ∃ ds, r.discussionState = some ds ∧ ds.isIndividualPhase = true) ∧
    (r.discussionState = none → (Room.nextSpeaker r now).1 = r) ∧
    (∀ ds, r.discussionState = some ds → ds.isIndividualPhase = false →
      (Room.nextSpeaker r now).1 = r) ∧
    (∀ ds, r.discussionState = some ds → ds.isIndividualPhase = true →
      ((ds.currentSpeakerIndex + 1 < ds.speakerOrder.length →
        (Room.nextSpeaker r now).1.discussionState = some
          { ds with currentSpeakerIndex := ds.currentSpeakerIndex + 1,
                    currentSpeakerId := ds.speakerOrder.get? (ds.currentSpeakerIndex + 1) } ∧
        (Room.nextSpeaker r now).1.endTime =
          some (now + r.settings.individualDiscussionDuration * 1000)) ∧
      (¬ (ds.currentSpeakerIndex + 1 < ds.speakerOrder.length) →
        (Room.nextSpeaker r now).1.discussionState = some
          { ds with isIndividualPhase := false, currentSpeakerId := none } ∧
        (Room.nextSpeaker r now).1.endTime =
          some (now + r.settings.discussionDuration * 1000)))) := by
  refine ⟨?_, ?_, ?_, ?_⟩
  · constructor
    · intro hb
      cases h : r.discussionState with
      | none => rw [nextSpeaker_eq_none r now h] at hb; cases hb
      | some ds =>
          cases hip : ds.isIndividualPhase with
          | false => rw [nextSpeaker_eq_general r now ds h hip] at hb; cases hb
          | true => exact ⟨ds, rfl, hip⟩

    · rintro ⟨ds, h, hip⟩
      by_cases hidx : ds.currentSpeakerIndex + 1 < ds.speakerOrder.length
      · rw [nextSpeaker_eq_advance r now ds h hip hidx]
      · rw [nextSpeaker_eq_flip r now ds h hip hidx]
  · intro h
    rw [nextSpeaker_eq_none r now h]
  · intro ds h hip
    rw [nextSpeaker_eq_general r now ds h hip]
  · intro ds h hip
    constructor
    · intro hidx
      rw [nextSpeaker_eq_advance r now ds h hip hidx]
      exact ⟨rfl, rfl⟩
    · intro hidx
      rw [nextSpeaker_eq_flip r now ds h hip hidx]
      exact ⟨rfl, rfl⟩

theorem nextSpeaker_spec_witness :
    generalDiscussionRoom.discussionState = some
      { currentSpeakerId := none, speakerOrder := ["a", "b", "c", "d"],
        currentSpeakerIndex := 3, isIndividualPhase := false,
        speakingTimePerPlayer := 15 } ∧
    (Room.nextSpeaker generalDiscussionRoom 5).1 = generalDiscussionRoom :=
  ⟨by decide,
   (nextSpeaker_spec generalDiscussionRoom 5).2.2.1
     { currentSpeakerId := none, speakerOrder := ["a", "b", "c", "d"],
       currentSpeakerIndex := 3, isIndividualPhase := false,
       speakingTimePerPlayer := 15 } (by decide) (by decide)⟩

/-! ### C8: `removePlayer` -/

def twoPlayerRoom : Room :=
  { baseRoom with
      players := [("a", mkPlayer "a" "Ann" true true none),
                  ("b", mkPlayer "b" "Bob" true false none)] }

/-- C8 counterexample: removing one of two players returns true (the player
was removed) although the room is not empty afterwards — the return value is
not "whether the room is now empty". -/
theorem removePlayer_return_not_isEmpty :
    (Room.removePlayer twoPlayerRoom "a").2 = true ∧
      (Room.removePlayer twoPlayerRoom "a").1.players ≠ [] := by
  constructor
  · decide
  · decide

theorem removePlayer_cond_pos (r : Room) (pid : String) (k : String) (p : Player)
    (rest : List (String × Player))
    (hq : (mapGet r.players pid).map (·.isHost) = some true)
    (hd : mapDelete r.players pid = (k, p) :: rest) :
    Room.removePlayer r pid =
      ({ r with players := (k, { p with isHost := true }) :: rest, hostId := p.id }, true) := by
  have hhas : mapHas r.players pid = true := by
    unfold mapHas
    cases hg : mapGet r.players pid with
    | none => rw [hg] at hq; cases hq
    | some q => simp
  unfold Room.removePlayer
  rw [if_pos ⟨hhas, hq, by rw [hd]; simp⟩]
  rw [hhas]
  simp only [hd]

theorem removePlayer_cond_neg_host (r : Room) (pid : String)
    (hq : ¬ (mapGet r.players pid).map (·.isHost) = some true) :
    Room.removePlayer r pid = ({ r with players := mapDelete r.players pid },
      mapHas r.players pid) := by
  unfold Room.removePlayer
  rw [if_neg (fun hc => hq hc.2.1)]

/-- C8 (amended): `removePlayer` deletes the player's entry; if the removed
player was host and other players remain, host status (`hostId` and the
`isHost` flag) passes to the first remaining player in join order; the call
returns whether the player was present and removed — not whether the room is
now empty. -/
theorem removePlayer_spec (r : Room) (pid : String)
    (hnd : (r.players.map (·.1)).Nodup) :
    ((Room.removePlayer r pid).2 = mapHas r.players pid) ∧
    (mapGet (Room.removePlayer r pid).1.players pid = none) ∧
    (∀ q, mapGet r.players pid = some q → q.isHost = true →
      ∀ k p rest, mapDelete r.players pid = (k, p) :: rest →
        (Room.removePlayer r pid).1.hostId = p.id ∧
        (Room.removePlayer r pid).1.players = (k, { p with isHost := true }) :: rest) ∧
    ((mapGet r.players pid).map (·.isHost) ≠ some true →
      (Room.removePlayer r pid).1.players = mapDelete r.players pid) := by
  have hkeys : ∀ l : List (String × Player),
      (Room.removePlayer r pid).1.players = l →
      (l.map (·.1)) = ((mapDelete r.players pid).map (·.1)) → True := fun _ _ _ => trivial
  have hnotmem : pid ∉ (mapDelete r.players pid).map (·.1) := by
    rw [keys_mapDelete]
    exact List.Nodup.not_mem_erase hnd
  by_cases hq : (mapGet r.players pid).map (·.isHost) = some true
  · cases hd : mapDelete r.players pid with
    | nil =>
        have hcond : ¬ (mapHas r.players pid = true ∧
            (mapGet r.players pid).map (·.isHost) = some true ∧
            0 < (mapDelete r.players pid).length) := by
          rintro ⟨-, -, hlen⟩
          rw [hd] at hlen
          simp at hlen
        have heq : Room.removePlayer r pid =
            ({ r with players := mapDelete r.players pid }, mapHas r.players pid) := by
          unfold Room.removePlayer
          rw [if_neg hcond]
        refine ⟨by rw [heq], ?_, ?_, ?_⟩
        · rw [heq]
          exact (mapGet_eq_none_iff _ _).mpr hnotmem
        · intro q hgq hhost k p rest hd'
          cases hd'
        · intro hq'
          exact absurd hq hq'
    | cons e rest =>
        have heq := removePlayer_cond_pos r pid e.1 e.2 rest hq (by rw [hd])
        refine ⟨?_, ?_, ?_, ?_⟩
        · rw [heq]
          have : mapHas r.players pid = true := by
            unfold mapHas
            cases hg : mapGet r.players pid with
            | none => rw [hg] at hq; cases hq
            | some u => simp
          rw [this]
        · rw [heq]
          have hk : (((e.1, { e.2 with isHost := true }) :: rest).map (·.1)) =
              ((mapDelete r.players pid).map (·.1)) := by
            rw [hd]
            simp
          have : pid ∉ (((e.1, { e.2 with isHost := true }) :: rest).map (·.1)) := by
            rw [hk]
            exact hnotmem
          exact (mapGet_eq_none_iff _ _).mpr this
        · intro q hgq hhost k p rest' hd'
          cases hd'
          rw [heq]
          exact ⟨rfl, rfl⟩
        · intro hq'
          exact absurd hq hq'
  · have heq := removePlayer_cond_neg_host r pid hq
    refine ⟨by rw [heq], ?_, ?_, fun _ => by rw [heq]⟩
    · rw [heq]
      exact (mapGet_eq_none_iff _ _).mpr hnotmem
    · intro q hgq hhost k p rest hd'
      exfalso
      apply hq
      rw [hgq]
      simp [hhost]

theorem removePlayer_spec_witness :
    ((twoPlayerRoom.players.map (·.1)).Nodup) ∧
      mapGet (Room.removePlayer twoPlayerRoom "a").1.players "a" = none :=
  ⟨by decide, (removePlayer_spec twoPlayerRoom "a" (by decide)).2.1⟩

/-! ### C6: the `ended` flag does not freeze the room -/

def endedRoom : Room :=
  Room.setIsEnded { baseRoom with players := fourPlayersList, phase := GamePhase.voting } true

/-- C6 counterexample: on a room whose `ended` flag is set, `vote` still
succeeds and records the vote — the state is mutated, not left unchanged. -/
theorem vote_mutates_ended_room :
    endedRoom.isEnded = true ∧ endedRoom.phase = GamePhase.ended ∧
      Room.vote endedRoom "a" "b" = some { endedRoom with votes := [("a", "b")] } ∧
      endedRoom.votes = [] := by
  refine ⟨by decide, by decide, by decide, by decide⟩

theorem length_mapSet_not_has (m : List (String × α)) (k : String) (v : α)
    (h : mapGet m k = none) : (mapSet m k v).length = m.length + 1 := by
  rw [mapSet_append m k v h]
  simp

/-- C6 (amended): `setIsEnded(true)` sets the terminal flag and forces the
phase to `ended`, but it does not freeze the room: the `Room` mutators
(`vote`, `setNightAction`, `addPlayer`, `addChatMessage`) still change the
state of an ended room when invoked; only the socket-handler phase checks
stand between an ended room and further mutation. -/
theorem setIsEnded_spec (r : Room) (v t pid pname sid sname txt uuid : String) (now : Nat) :
    (Room.setIsEnded r true).isEnded = true ∧
    (Room.setIsEnded r true).phase = GamePhase.ended ∧
    (mapGet r.votes v = none →
      ∃ r', Room.vote (Room.setIsEnded r true) v t = some r' ∧
        r' ≠ Room.setIsEnded r true) ∧
    (mapGet r.nightActions pid = none →
      Room.setNightAction (Room.setIsEnded r true) pid t ≠ Room.setIsEnded r true) ∧
    (mapGet r.players pid = none →
      Room.addPlayer (Room.setIsEnded r true) pid pname false ≠ Room.setIsEnded r true) ∧
    Room.addChatMessage (Room.setIsEnded r true) sid sname txt false uuid now ≠
      Room.setIsEnded r true := by
  refine ⟨rfl, rfl, ?_, ?_, ?_, ?_⟩
  · intro h
    refine ⟨{ Room.setIsEnded r true with votes := mapSet r.votes v t }, ?_, ?_⟩
    · unfold Room.vote
      rw [if_neg (by simp [mapHas, Room.setIsEnded, h])]
      rfl
    · intro hc
      have hv := congrArg Room.votes hc
      simp only [Room.setIsEnded] at hv
      have := congrArg List.length hv
      rw [length_mapSet_not_has _ _ _ h] at this
      omega
  · intro h hc
    have hv := congrArg Room.nightActions hc
    simp only [Room.setNightAction, Room.setIsEnded] at hv
    have := congrArg List.length hv
    rw [length_mapSet_not_has _ _ _ h] at this
    omega
  · intro h hc
    have hv := congrArg Room.players hc
    simp only [Room.addPlayer, Room.setIsEnded] at hv
    have := congrArg List.length hv
    rw [length_mapSet_not_has _ _ _ h] at this
    omega
  · intro hc
    have hv := congrArg Room.chatMessages hc
    simp only [Room.addChatMessage, Room.setIsEnded] at hv
    have := congrArg List.length hv
    simp at this

theorem setIsEnded_spec_witness :
    (mapGet baseRoom.votes "a" = none) ∧
      (Room.setIsEnded baseRoom true).phase = GamePhase.ended :=
  ⟨by decide, (setIsEnded_spec baseRoom "a" "b" "p" "n" "s" "sn" "tx" "u" 0).2.1⟩

/-! ### C10: room-code generation vs the join format check -/

/-- C10: for the representable random draw 1/2, `generateRoomCode` produces
`"I"` — a code shorter than six characters — and every string shorter than
six characters fails the join-time format validation `/^[A-Z0-9]{6}$/`, so
such a room can never be joined by code. -/
theorem generateRoomCode_too_short :
    generateRoomCode 1 2 = "I" ∧
    (generateRoomCode 1 2).length < 6 ∧
    isValidRoomCode (generateRoomCode 1 2) = false ∧
    (∀ s : String, s.length < 6 → isValidRoomCode s = false) := by
  refine ⟨by decide, by decide, by decide, ?_⟩
  intro s hs
  have : ¬ (s.length = 6 ∧
      s.data.all (fun c => ('A' ≤ c ∧ c ≤ 'Z') ∨ ('0' ≤ c ∧ c ≤ '9')) = true) := by
    rintro ⟨h6, -⟩
    omega
  simpa [isValidRoomCode] using this

theorem generateRoomCode_too_short_witness :
    ("I".length < 6) ∧ isValidRoomCode "I" = false :=
  ⟨by decide, generateRoomCode_too_short.2.2.2 "I" (by decide)⟩

/-! ### C4: role assignment counting -/

theorem map_indexOf_eq_range (l : List String) (hnd : l.Nodup) :
    l.map (fun k => l.indexOf k) = List.range l.length := by
  apply List.ext_getElem
  · simp
  · intro i h1 h2
    simp only [List.getElem_map, List.getElem_range]
    exact List.indexOf_getElem hnd i (by simpa using h1)

theorem countP_comp_indexOf (l : List String) (hnd : l.Nodup) (f : Nat → Bool) :
    l.countP (fun k => f (l.indexOf k)) = (List.range l.length).countP f := by
  rw [← map_indexOf_eq_range l hnd, List.countP_map]
  rfl

theorem countP_range_get_eq_count (ro : List Role) (x : Role) :
    (List.range ro.length).countP (fun i => ro.get? i = some x) = ro.count x := by
  induction ro with
  | nil => simp
  | cons a l ih =>
      have hr : List.range (a :: l).length = 0 :: (List.range l.length).map Nat.succ := by
        rw [List.length_cons, List.range_succ_eq_map]
      rw [hr, List.countP_cons, List.countP_map, List.count_cons]
      have h1 : (List.range l.length).countP
          ((fun i => decide ((a :: l).get? i = some x)) ∘ Nat.succ)
          = (List.range l.length).countP (fun i => l.get? i = some x) := rfl
      rw [h1, ih]
      by_cases hax : a = x
      · simp [hax]
      · simp [hax, fun hh : x = a => hax hh.symm]

theorem rolesList_length (n m : Nat) (hD hS : Bool) :
    (Room.rolesList n m hD hS).length = n := by
  unfold Room.rolesList
  dsimp only
  cases hD <;> cases hS <;>
    simp only [Bool.false_eq_true, false_and, true_and, if_false,
      List.length_nil, Nat.add_zero] <;>
  first
  | (split_ifs <;>
      simp only [List.length_append, List.length_replicate, List.length_cons,
        List.length_nil] at * <;>
      omega)
  | (simp only [List.length_append, List.length_replicate, List.length_nil]
     omega)

theorem rolesList_false_eq (n m : Nat) :
    Room.rolesList n m false false =
      List.replicate (min m n) Role.mafia ++
        List.replicate (n - min m n) Role.citizen := by
  unfold Room.rolesList
  simp

theorem roleConfig_flags (n : Nat) :
    (Room.roleConfig n).2.1 = false ∧ (Room.roleConfig n).2.2 = false := by
  unfold Room.roleConfig
  split_ifs <;> exact ⟨rfl, rfl⟩

theorem roleConfig_le (n : Nat) (h : 1 ≤ n) : (Room.roleConfig n).1 ≤ n := by
  unfold Room.roleConfig
  split_ifs <;> omega

theorem assignRoles_count (r : Room) (shuffled : List String) (ro : Role)
    (hnd : (r.players.map (·.1)).Nodup)
    (hperm : shuffled.Perm (r.players.map (·.1))) :
    ((Room.getAllPlayers (Room.assignRoles r shuffled)).filter
        (fun p => p.role = some ro)).length
      = (Room.rolesList (Room.getAllPlayers r).length
          (Room.roleConfig (Room.getAllPlayers r).length).1
          (Room.roleConfig (Room.getAllPlayers r).length).2.1
          (Room.roleConfig (Room.getAllPlayers r).length).2.2).count ro := by
  have hndS : shuffled.Nodup := (List.Perm.nodup_iff hperm).mpr hnd
  have hlen : shuffled.length = (Room.getAllPlayers r).length := by
    rw [List.Perm.length_eq hperm]
    simp [Room.getAllPlayers, mapValues]
  set roles := Room.rolesList (Room.getAllPlayers r).length
    (Room.roleConfig (Room.getAllPlayers r).length).1
    (Room.roleConfig (Room.getAllPlayers r).length).2.1
    (Room.roleConfig (Room.getAllPlayers r).length).2.2 with hroles
  have h1 : ((Room.getAllPlayers (Room.assignRoles r shuffled)).filter
      (fun p => p.role = some ro)).length
      = r.players.countP (fun e => roles.get? (shuffled.indexOf e.1) = some ro) := by
    rw [← List.countP_eq_length_filter]
    simp only [Room.assignRoles, Room.getAllPlayers, mapValues]
    rw [List.map_map, List.countP_map]
    rfl
  have h2 : r.players.countP (fun e => roles.get? (shuffled.indexOf e.1) = some ro)
      = (r.players.map (·.1)).countP (fun k => roles.get? (shuffled.indexOf k) = some ro) := by
    rw [List.countP_map]
    rfl
  have h3 : (r.players.map (·.1)).countP (fun k => roles.get? (shuffled.indexOf k) = some ro)
      = shuffled.countP (fun k => roles.get? (shuffled.indexOf k) = some ro) :=
    (List.Perm.countP_eq _ hperm).symm
  have h4 : shuffled.countP (fun k => roles.get? (shuffled.indexOf k) = some ro)
      = (List.range shuffled.length).countP (fun i => roles.get? i = some ro) := by
    exact countP_comp_indexOf shuffled hndS (fun i => decide (roles.get? i = some ro))
  have h5 : (List.range shuffled.length).countP (fun i => roles.get? i = some ro)
      = roles.count ro := by
    rw [hlen, ← rolesList_length (Room.getAllPlayers r).length
      (Room.roleConfig (Room.getAllPlayers r).length).1
      (Room.roleConfig (Room.getAllPlayers r).length).2.1
      (Room.roleConfig (Room.getAllPlayers r).length).2.2, ← hroles]
    exact countP_range_get_eq_count roles ro
  rw [h1, h2, h3, h4, h5]

/-- C4 (amended): with enough players, `startGame` assigns exactly the
tiered mafia count given by `roleConfig` (1 for ≤6 players, 2 for 7-9, 3 for
10-12, 4 above); it never assigns a doctor or a sheriff — the tier table
hardcodes both off and the configured settings flags are ignored — and all
remaining players become citizens; it resets the round to 1, clears the
action and vote maps, and enters the discussion sub-phase with individual
turns; with fewer than `minPlayers` it fails (`NotEnoughPlayers`). -/
theorem startGame_spec (r : Room) (shuffled : List String) (now : Nat)
    (hnd : (r.players.map (·.1)).Nodup)
    (hperm : shuffled.Perm (r.players.map (·.1))) :
    (r.players.length < r.settings.minPlayers → Room.startGame r shuffled now = none) ∧
    (r.settings.minPlayers ≤ r.players.length → 1 ≤ r.players.length →
      ∃ r', Room.startGame r shuffled now = some r' ∧
        ((Room.getAllPlayers r').filter (fun p => p.role = some Role.mafia)).length
          = (Room.roleConfig r.players.length).1 ∧
        ((Room.getAllPlayers r').filter (fun p => p.role = some Role.doctor)).length = 0 ∧
        ((Room.getAllPlayers r').filter (fun p => p.role = some Role.sheriff)).length = 0 ∧
        ((Room.getAllPlayers r').filter (fun p => p.role = some Role.citizen)).length
          = r.players.length - (Room.roleConfig r.players.length).1 ∧
        r'.round = 1 ∧ r'.nightActions = [] ∧ r'.votes = [] ∧
        r'.phase = GamePhase.discussion ∧
        (∃ ds, r'.discussionState = some ds ∧ ds.isIndividualPhase = true)) := by
  have hN : (Room.getAllPlayers r).length = r.players.length := by
    simp [Room.getAllPlayers, mapValues]
  constructor
  · intro h
    unfold Room.startGame
    rw [if_pos h]
  · intro hmin hpos
    have hlt : ¬ r.players.length < r.settings.minPlayers := by omega
    have heq : Room.startGame r shuffled now =
        some (Room.startDiscussion
          ({ Room.assignRoles r shuffled with
              round := 1, nightActions := [], votes := [] }) now) := by
      unfold Room.startGame
      rw [if_neg hlt]
    have hcfg := roleConfig_flags r.players.length
    have hle : (Room.roleConfig r.players.length).1 ≤ r.players.length :=
      roleConfig_le r.players.length hpos
    have hcount : ∀ ro : Role,
        ((Room.getAllPlayers (Room.startDiscussion
            ({ Room.assignRoles r shuffled with
                round := 1, nightActions := [], votes := [] }) now)).filter
          (fun p => p.role = some ro)).length
        = (List.replicate (min (Room.roleConfig r.players.length).1 r.players.length)
              Role.mafia ++
            List.replicate (r.players.length -
              min (Room.roleConfig r.players.length).1 r.players.length)
              Role.citizen).count ro := by
      intro ro
      have hpl : Room.getAllPlayers (Room.startDiscussion
          ({ Room.assignRoles r shuffled with
              round := 1, nightActions := [], votes := [] }) now)
          = Room.getAllPlayers (Room.assignRoles r shuffled) := rfl
      rw [hpl, assignRoles_count r shuffled ro hnd hperm, hN, hcfg.1, hcfg.2,
        rolesList_false_eq]
    refine ⟨_, heq, ?_, ?_, ?_, ?_, rfl, rfl, rfl, rfl, ⟨_, rfl, rfl⟩⟩
    · rw [hcount Role.mafia]
      simp [List.count_append, List.count_replicate]
      exact hle
    · rw [hcount Role.doctor]
      simp [List.count_append, List.count_replicate]
    · rw [hcount Role.sheriff]
      simp [List.count_append, List.count_replicate]
    · rw [hcount Role.citizen]
      simp [List.count_append, List.count_replicate]
      rw [Nat.min_eq_left hle]

def tenPlayersList : List (String × Player) :=
  [("p0", mkPlayer "p0" "n0" true true none), ("p1", mkPlayer "p1" "n1" true false none),
   ("p2", mkPlayer "p2" "n2" true false none), ("p3", mkPlayer "p3" "n3" true false none),
   ("p4", mkPlayer "p4" "n4" true false none), ("p5", mkPlayer "p5" "n5" true false none),
   ("p6", mkPlayer "p6" "n6" true false none), ("p7", mkPlayer "p7" "n7" true false none),
   ("p8", mkPlayer "p8" "n8" true false none), ("p9", mkPlayer "p9" "n9" true false none)]

/-- A ten-player lobby whose settings request both a doctor and a sheriff. -/
def tenPlayerRoom : Room :=
  { baseRoom with players := tenPlayersList }

def tenIds : List String :=
  ["p0", "p1", "p2", "p3", "p4", "p5", "p6", "p7", "p8", "p9"]

/-- C4 counterexample: a ten-player game whose settings set
`hasDoctor = hasSheriff = true` still assigns zero doctors and zero
sheriffs — `assignRoles` hardcodes both flags off and ignores the settings. -/
theorem startGame_ignores_settings_flags :
    tenPlayerRoom.settings.hasDoctor = true ∧
    tenPlayerRoom.settings.hasSheriff = true ∧
    (Room.startGame tenPlayerRoom tenIds 0).map
        (fun r' => ((Room.getAllPlayers r').filter
          (fun p => p.role = some Role.doctor)).length) = some 0 ∧
    (Room.startGame tenPlayerRoom tenIds 0).map
        (fun r' => ((Room.getAllPlayers r').filter
          (fun p => p.role = some Role.sheriff)).length) = some 0 ∧
    (Room.startGame tenPlayerRoom tenIds 0).map
        (fun r' => ((Room.getAllPlayers r').filter
          (fun p => p.role = some Role.mafia)).length) = some 3 := by
  refine ⟨rfl, rfl, by decide, by decide, by decide⟩

def lobbyPlayersList : List (String × Player) :=
  [("a", mkPlayer "a" "Ann" true true none),
   ("b", mkPlayer "b" "Bob" true false none),
   ("c", mkPlayer "c" "Cal" true false none),
   ("d", mkPlayer "d" "Dan" true false none)]

def lobbyRoom : Room :=
  { baseRoom with players := lobbyPlayersList }

theorem startGame_spec_witness :
    ((lobbyRoom.players.map (·.1)).Nodup) ∧
      (∃ r', Room.startGame lobbyRoom ["c", "a", "d", "b"] 0 = some r' ∧
        ((Room.getAllPlayers r').filter (fun p => p.role = some Role.mafia)).length
          = (Room.roleConfig lobbyRoom.players.length).1 ∧
        ((Room.getAllPlayers r').filter (fun p => p.role = some Role.doctor)).length = 0 ∧
        ((Room.getAllPlayers r').filter (fun p => p.role = some Role.sheriff)).length = 0 ∧
        ((Room.getAllPlayers r').filter (fun p => p.role = some Role.citizen)).length
          = lobbyRoom.players.length - (Room.roleConfig lobbyRoom.players.length).1 ∧
        r'.round = 1 ∧ r'.nightActions = [] ∧ r'.votes = [] ∧
        r'.phase = GamePhase.discussion ∧
        (∃ ds, r'.discussionState = some ds ∧ ds.isIndividualPhase = true)) :=
  ⟨by decide,
   (startGame_spec lobbyRoom ["c", "a", "d", "b"] 0 (by decide) (by decide)).2
     (by decide) (by decide)⟩

/-! ### C3: snapshot round trip -/

theorem foldl_mapSet_entries (m : List (String × α)) :
    ∀ acc : List (String × α), (m.map (·.1)).Nodup →
    (∀ k ∈ m.map (·.1), k ∉ acc.map (·.1)) →
    m.foldl (fun acc e => mapSet acc e.1 e.2) acc = acc ++ m := by
  induction m with
  | nil => intro acc _ _; simp
  | cons e rest ih =>
      intro acc hnd hdisj
      simp only [List.foldl_cons]
      have hget : mapGet acc e.1 = none :=
        (mapGet_eq_none_iff _ _).mpr (hdisj e.1 (by simp))
      rw [mapSet_append _ _ _ hget]
      have hnd' : (rest.map (·.1)).Nodup := by
        simp only [List.map_cons, List.nodup_cons] at hnd
        exact hnd.2
      have hdisj' : ∀ k ∈ rest.map (·.1), k ∉ (acc ++ [(e.1, e.2)]).map (·.1) := by
        intro k hk
        simp only [List.map_append, List.mem_append, List.map_cons, List.map_nil,
          List.mem_singleton, not_or]
        refine ⟨hdisj k (by simp [hk]), ?_⟩
        intro hke
        simp only [List.map_cons, List.nodup_cons] at hnd
        exact hnd.1 (hke ▸ hk)
      rw [ih (acc ++ [(e.1, e.2)]) hnd' hdisj']
      simp

theorem recordOfMap_self (m : List (String × String))
    (hnd : (m.map (·.1)).Nodup) : recordOfMap m = m := by
  unfold recordOfMap
  rw [foldl_mapSet_entries m [] hnd (by simp)]
  simp

theorem foldl_mapSet_values (m : List (String × Player)) :
    ∀ acc : List (String × Player), (∀ e ∈ m, e.1 = e.2.id) →
    (m.map (·.1)).Nodup →
    (∀ k ∈ m.map (·.1), k ∉ acc.map (·.1)) →
    (m.map (·.2)).foldl (fun acc p => mapSet acc p.id p) acc = acc ++ m := by
  induction m with
  | nil => intro acc _ _ _; simp
  | cons e rest ih =>
      intro acc hkey hnd hdisj
      simp only [List.map_cons, List.foldl_cons]
      have he : e.1 = e.2.id := hkey e (List.mem_cons_self _ _)
      have hget : mapGet acc e.2.id = none := by
        rw [← he]
        exact (mapGet_eq_none_iff _ _).mpr (hdisj e.1 (by simp))
      rw [mapSet_append _ _ _ hget]
      have hkey' : ∀ x ∈ rest, x.1 = x.2.id := fun x hx => hkey x (List.mem_cons_of_mem _ hx)
      have hnd' : (rest.map (·.1)).Nodup := by
        simp only [List.map_cons, List.nodup_cons] at hnd
        exact hnd.2
      have hdisj' : ∀ k ∈ rest.map (·.1), k ∉ (acc ++ [(e.2.id, e.2)]).map (·.1) := by
        intro k hk
        simp only [List.map_append, List.mem_append, List.map_cons, List.map_nil,
          List.mem_singleton, not_or]
        refine ⟨hdisj k (by simp [hk]), ?_⟩
        intro hke
        simp only [List.map_cons, List.nodup_cons] at hnd
        rw [← he] at hke
        exact hnd.1 (hke ▸ hk)
      rw [ih (acc ++ [(e.2.id, e.2)]) hkey' hnd' hdisj']
      rw [← he]
      simp

theorem fromGameRoom_players (r : Room)
    (hkey : ∀ e ∈ r.players, e.1 = e.2.id)
    (hnd : (r.players.map (·.1)).Nodup)
    (hhost : ∃ p0, r.players.head? = some (r.hostId, p0)) :
    (Room.fromGameRoom (Room.toGameRoom r)).players = r.players := by
  obtain ⟨p0, hh⟩ := hhost
  have hpl : (Room.fromGameRoom (Room.toGameRoom r)).players =
      (r.players.map (·.2)).foldl (fun acc p => mapSet acc p.id p)
        [(r.hostId, (⟨r.hostId, "", true, true, none⟩ : Player))] := rfl
  cases hp : r.players with
  | nil => rw [hp] at hh; cases hh
  | cons e rest =>
      rw [hp] at hh
      simp only [List.head?_cons, Option.some.injEq] at hh
      have hid : p0.id = r.hostId := by
        have := hkey e (by rw [hp]; exact List.mem_cons_self _ _)
        rw [hh] at this
        exact this.symm
      rw [hpl, hp]
      simp only [List.map_cons, List.foldl_cons]
      have hstep : mapSet [(r.hostId, (⟨r.hostId, "", true, true, none⟩ : Player))]
          p0.id p0 = [(r.hostId, p0)] := by
        rw [hid]
        simp [mapSet]
      rw [hh]
      simp only [hstep]
      have hkey' : ∀ x ∈ rest, x.1 = x.2.id := by
        intro x hx
        exact hkey x (by rw [hp]; exact List.mem_cons_of_mem _ hx)
      have hnd' : (rest.map (·.1)).Nodup := by
        rw [hp] at hnd
        simp only [List.map_cons, List.nodup_cons] at hnd
        exact hnd.2
      have hdisj : ∀ k ∈ rest.map (·.1), k ∉ ([(r.hostId, p0)] : List (String × Player)).map (·.1) := by
        intro k hk
        simp only [List.map_cons, List.map_nil, List.mem_singleton]
        intro hke
        rw [hp] at hnd
        simp only [List.map_cons, List.nodup_cons] at hnd
        have : e.1 = r.hostId := by rw [hh]
        exact hnd.1 (this ▸ hke ▸ hk)
      rw [foldl_mapSet_values rest [(r.hostId, p0)] hkey' hnd' hdisj]
      simp

theorem fromGameRoom_endTime (r : Room) (hend : r.endTime ≠ some 0) :
    (Room.fromGameRoom (Room.toGameRoom r)).endTime = r.endTime := by
  show (if r.endTime.getD 0 = 0 then none else some (r.endTime.getD 0)) = r.endTime
  cases he : r.endTime with
  | none => simp
  | some t =>
      have ht : t ≠ 0 := fun h0 => hend (by rw [he, h0])
      simp [ht]

theorem roomExt (a b : Room)
    (h1 : a.id = b.id) (h2 : a.code = b.code) (h3 : a.hostId = b.hostId)
    (h4 : a.players = b.players) (h5 : a.phase = b.phase) (h6 : a.round = b.round)
    (h7 : a.endTime = b.endTime) (h8 : a.settings = b.settings)
    (h9 : a.discussionState = b.discussionState)
    (h10 : a.nightActions = b.nightActions) (h11 : a.votes = b.votes)
    (h12 : a.chatMessages = b.chatMessages) (h13 : a.createdAt = b.createdAt)
    (h14 : a.connectedSockets = b.connectedSockets) (h15 : a.isEnded = b.isEnded)
    (h16 : a.lastVotingResult = b.lastVotingResult)
    (h17 : a.lastNightResult = b.lastNightResult) : a = b := by
  cases a
  cases b
  simp only at h1 h2 h3 h4 h5 h6 h7 h8 h9 h10 h11 h12 h13 h14 h15 h16 h17
  subst h1 h2 h3 h4 h5 h6 h7 h8 h9 h10 h11 h12 h13 h14 h15 h16 h17
  rfl

/-- A mid-voting room carrying a connection entry and a last night result. -/
def midGameRoom : Room :=
  { baseRoom with
      phase := GamePhase.voting, players := fourPlayersList,
      votes := [("a", "d")],
      discussionState := some
        { currentSpeakerId := some "b", speakerOrder := ["a", "b", "c", "d"],
          currentSpeakerIndex := 1, isIndividualPhase := true,
          speakingTimePerPlayer := 15 },
      connectedSockets := [("a", "sock1")],
      lastNightResult := some { killedId := some "d", savedId := none } }

/-- C3 counterexample: the snapshot round trip loses data — the connection
map and the last night result of the §3 data model are not serialized, so
the reconstructed room does not preserve every field. -/
theorem roundTrip_loses_fields :
    midGameRoom.lastNightResult = some { killedId := some "d", savedId := none } ∧
      (Room.fromGameRoom (Room.toGameRoom midGameRoom)).lastNightResult = none ∧
      midGameRoom.connectedSockets = [("a", "sock1")] ∧
      (Room.fromGameRoom (Room.toGameRoom midGameRoom)).connectedSockets = [] := by
  exact ⟨rfl, by decide, rfl, by decide⟩

/-- C3 (amended): for a well-formed room (entry keys are the player ids, no
duplicate keys, the host is the first player in join order, and the end time
is not the JS-falsy `0`), `fromGameRoom ∘ toGameRoom` preserves every
serialized field — id, code, hostId, players (with join order), phase,
round, endTime, settings, the in-flight votes and night actions, the
discussion turn position and chat log — while the connection map and the
last-result fields are reset; consequently the reconstructed room yields an
identical next `nextVoter`/`processVoting` outcome. -/
theorem roundTrip_spec (r : Room) (now : Nat)
    (hkey : ∀ e ∈ r.players, e.1 = e.2.id)
    (hnd : (r.players.map (·.1)).Nodup)
    (hhost : ∃ p0, r.players.head? = some (r.hostId, p0))
    (hndv : (r.votes.map (·.1)).Nodup)
    (hndn : (r.nightActions.map (·.1)).Nodup)
    (hend : r.endTime ≠ some 0) :
    Room.fromGameRoom (Room.toGameRoom r) =
      { r with connectedSockets := [], lastVotingResult := none,
               lastNightResult := none } ∧
    (Room.processVoting (Room.fromGameRoom (Room.toGameRoom r))).2 =
      (Room.processVoting r).2 ∧
    (Room.nextVoter (Room.fromGameRoom (Room.toGameRoom r)) now).2 =
      (Room.nextVoter r now).2 ∧
    (Room.nextVoter (Room.fromGameRoom (Room.toGameRoom r)) now).1.discussionState =
      (Room.nextVoter r now).1.discussionState := by
  have hvotes : (Room.fromGameRoom (Room.toGameRoom r)).votes = r.votes := by
    have h1 : (Room.fromGameRoom (Room.toGameRoom r)).votes =
        recordOfMap (recordOfMap r.votes) := rfl
    rw [h1, recordOfMap_self r.votes hndv, recordOfMap_self r.votes hndv]
  have hnight : (Room.fromGameRoom (Room.toGameRoom r)).nightActions = r.nightActions := by
    have h1 : (Room.fromGameRoom (Room.toGameRoom r)).nightActions =
        recordOfMap (recordOfMap r.nightActions) := rfl
    rw [h1, recordOfMap_self r.nightActions hndn, recordOfMap_self r.nightActions hndn]
  have hmain : Room.fromGameRoom (Room.toGameRoom r) =
      { r with connectedSockets := [], lastVotingResult := none,
               lastNightResult := none } := by
    refine roomExt _ _ rfl rfl rfl ?_ rfl rfl ?_ rfl rfl ?_ ?_ rfl rfl rfl rfl rfl rfl
    · exact fromGameRoom_players r hkey hnd hhost
    · exact fromGameRoom_endTime r hend
    · exact hnight
    · exact hvotes
  refine ⟨hmain, ?_, ?_, ?_⟩
  · rw [hmain]
    exact rfl
  · rw [hmain]
    cases h : r.discussionState with
    | none => simp [Room.nextVoter, h]
    | some ds =>
        simp only [Room.nextVoter, h]
        split_ifs <;> rfl
  · rw [hmain]
    cases h : r.discussionState with
    | none => simp [Room.nextVoter, h]
    | some ds =>
        simp only [Room.nextVoter, h]
        split_ifs <;> simp [h, Room.updateEndTime]

theorem roundTrip_spec_witness :
    (votingRoom.endTime ≠ some 0) ∧
      Room.fromGameRoom (Room.toGameRoom votingRoom) =
        { votingRoom with
            connectedSockets := [], lastVotingResult := none,
            lastNightResult := none } :=
  ⟨by decide,
   (roundTrip_spec votingRoom 0 (by decide) (by decide)
     ⟨mkPlayer "a" "Ann" true true (some Role.mafia), by decide⟩
     (by decide) (by decide) (by decide)).1⟩
